import Mathlib

/-!
Verification of the rules-and-decision core of a four-player Junqi
(Stratego-like) engine.  The definitions below are a shallow embedding of
the TypeScript sources: board topology, move legality (including the
railway breadth-first search used by Engineers), combat resolution,
game-over detection, the AI piece-memory model, and the minimax search
with alpha-beta pruning.  Machine numbers are modelled as Int/Nat
(JavaScript numbers are exact on this range), the board is a 17x17 array
of nullable cells, and code paths that can throw (raw `board[i][j]`
indexing on a missing row) are modelled in an Except monad.
-/

/-! ## Piece and board data model (src/lib/types.ts) -/

/- Numeric piece ranks from the PieceType enum: higher wins in normal
combat; Bomb, Mine and Flag are sentinels. -/
namespace PieceType

def Commander : Nat := 40

def Corps : Nat := 39

def Division : Nat := 38

def Brigade : Nat := 37

def Regiment : Nat := 36

def Battalion : Nat := 35

def Company : Nat := 34

def Platoon : Nat := 33

def Engineer : Nat := 32

def Bomb : Nat := 99

def Mine : Nat := 88

def Flag : Nat := 0

end PieceType

/-- A piece: stable id, numeric rank (PieceType), owning seat 0..3, and
whether its rank has been revealed. -/
structure Piece where
  id : Nat
  type : Nat
  player : Nat
  isRevealed : Bool
deriving DecidableEq, Repr

/-- Terrain kind of a board cell. -/
inductive BoardNodeType where
  | Normal
  | Station
  | Campsite
  | HQ
deriving DecidableEq, Repr

/-- A board cell: terrain kind, railway membership, optional occupant. -/
structure BoardNode where
  type : BoardNodeType
  isRailway : Bool
  piece : Option Piece
deriving DecidableEq, Repr

/-- An integer grid position (JavaScript numbers may be negative, so we
use Int). -/
structure Position where
  x : Int
  y : Int
deriving DecidableEq, Repr

/-- The board is a 17x17 jagged array of nullable cells; a `none` entry
is a cell outside the playable cross (null in the source). -/
abbrev Board := List (List (Option BoardNode))

/-- Indexing a JavaScript array: out-of-range (including negative)
indices yield undefined, modelled as none. -/
def listIdx? {α : Type} (l : List α) (i : Int) : Option α :=
  if i < 0 then none else l[i.toNat]?

/-- Optional-chained cell access board[x]?.[y]: flattens both a missing
row/column (undefined) and a null cell to none. -/
def chk (b : Board) (p : Position) : Option BoardNode :=
  match listIdx? b p.x with
  | none => none
  | some row => (listIdx? row p.y).join

/-- The piece standing on a cell, if the cell exists and is occupied. -/
def cellPiece (b : Board) (p : Position) : Option Piece :=
  (chk b p).bind fun n => n.piece

/-- Raw row access board[i]: throws (Except.error) when the row is
missing, exactly like indexing undefined in JavaScript. -/
def rawRow (b : Board) (i : Int) : Except Unit (List (Option BoardNode)) :=
  match listIdx? b i with
  | some row => Except.ok row
  | none => Except.error ()

/-- Raw access board[i][j]?.piece : truthiness of the occupant; throws
when row i is missing. -/
def rawPieceAt (b : Board) (i j : Int) : Except Unit Bool := do
  let row ← rawRow b i
  pure (((listIdx? row j).join).bind fun n => n.piece).isSome

/-- Writing board[x][y] := v; a write outside the existing rows/columns
is dropped (the source only writes to cells it has already read). -/
def setCell (b : Board) (x y : Int) (v : Option BoardNode) : Board :=
  match listIdx? b x with
  | none => b
  | some row =>
      if x < 0 then b
      else b.set x.toNat (if y < 0 then row else row.set y.toNat v)

/-! ## Topology (src/lib/constants.ts, gameLogic part) -/

def BOARD_ROWS : Int := 17

def BOARD_COLS : Int := 17

/-- Position lies on the 17x17 grid. -/
def isValidPos (x y : Int) : Bool :=
  decide (0 ≤ x) && decide (x < BOARD_ROWS) && decide (0 ≤ y) && decide (y < BOARD_COLS)

def isTopZone (r c : Int) : Bool :=
  decide (0 ≤ r) && decide (r ≤ 5) && decide (6 ≤ c) && decide (c ≤ 10)

def isBottomZone (r c : Int) : Bool :=
  decide (11 ≤ r) && decide (r ≤ 16) && decide (6 ≤ c) && decide (c ≤ 10)

def isLeftZone (r c : Int) : Bool :=
  decide (6 ≤ r) && decide (r ≤ 10) && decide (0 ≤ c) && decide (c ≤ 5)

def isRightZone (r c : Int) : Bool :=
  decide (6 ≤ r) && decide (r ≤ 10) && decide (11 ≤ c) && decide (c ≤ 16)

def isCentralRailwayVertical (r c : Int) : Bool :=
  (decide (c = 6) || decide (c = 8) || decide (c = 10)) && decide (6 ≤ r) && decide (r ≤ 10)

def isCentralRailwayHorizontal (r c : Int) : Bool :=
  (decide (r = 6) || decide (r = 8) || decide (r = 10)) && decide (6 ≤ c) && decide (c ≤ 10)

def isCentralRailway (r c : Int) : Bool :=
  isCentralRailwayVertical r c || isCentralRailwayHorizontal r c

/-- The twenty campsite (safety-zone) cells. -/
def campsites : List Position :=
  [⟨2, 7⟩, ⟨3, 8⟩, ⟨2, 9⟩, ⟨4, 7⟩, ⟨4, 9⟩,
   ⟨14, 7⟩, ⟨13, 8⟩, ⟨14, 9⟩, ⟨12, 7⟩, ⟨12, 9⟩,
   ⟨7, 2⟩, ⟨8, 3⟩, ⟨9, 2⟩, ⟨7, 4⟩, ⟨9, 4⟩,
   ⟨7, 14⟩, ⟨8, 13⟩, ⟨9, 14⟩, ⟨7, 12⟩, ⟨9, 12⟩]

/-- The eight headquarters cells. -/
def hqs : List Position :=
  [⟨0, 7⟩, ⟨0, 9⟩, ⟨16, 7⟩, ⟨16, 9⟩, ⟨7, 0⟩, ⟨9, 0⟩, ⟨7, 16⟩, ⟨9, 16⟩]

/-- Which seat owns the HQ at (r, c), if any. -/
def getHQOwner (r c : Int) : Option Nat :=
  if r = 0 ∧ (c = 7 ∨ c = 9) then some 2
  else if r = 16 ∧ (c = 7 ∨ c = 9) then some 0
  else if c = 0 ∧ (r = 7 ∨ r = 9) then some 3
  else if c = 16 ∧ (r = 7 ∨ r = 9) then some 1
  else none

def isVerticalRailway (r c : Int) : Bool :=
  isCentralRailwayVertical r c
  || ((decide (c = 6) || decide (c = 10)) && decide (1 ≤ r) && decide (r ≤ 5))
  || ((decide (c = 6) || decide (c = 10)) && decide (11 ≤ r) && decide (r ≤ 15))
  || ((decide (c = 1) || decide (c = 5)) && decide (6 ≤ r) && decide (r ≤ 10))
  || ((decide (c = 11) || decide (c = 15)) && decide (6 ≤ r) && decide (r ≤ 10))
  || (decide (c = 8) && (decide (r = 5) || decide (r = 11)))

def isHorizontalRailway (r c : Int) : Bool :=
  isCentralRailwayHorizontal r c
  || ((decide (r = 1) || decide (r = 5)) && decide (6 ≤ c) && decide (c ≤ 10))
  || ((decide (r = 11) || decide (r = 15)) && decide (6 ≤ c) && decide (c ≤ 10))
  || ((decide (r = 6) || decide (r = 10)) && decide (1 ≤ c) && decide (c ≤ 5))
  || ((decide (r = 6) || decide (r = 10)) && decide (11 ≤ c) && decide (c ≤ 15))
  || (decide (r = 8) && (decide (c = 5) || decide (c = 11)))

def isRailwayNode (r c : Int) : Bool :=
  isVerticalRailway r c || isHorizontalRailway r c

/-- The curved corner tracks between adjacent zones, in the insertion
order of the source Map; each key maps to a single neighbor. -/
def cornerEntries : List (Position × Position) :=
  [(⟨11, 6⟩, ⟨10, 5⟩), (⟨10, 5⟩, ⟨11, 6⟩),
   (⟨11, 10⟩, ⟨10, 11⟩), (⟨10, 11⟩, ⟨11, 10⟩),
   (⟨5, 6⟩, ⟨6, 5⟩), (⟨6, 5⟩, ⟨5, 6⟩),
   (⟨5, 10⟩, ⟨6, 11⟩), (⟨6, 11⟩, ⟨5, 10⟩)]

/-- Curved-track neighbors of a position (empty off the eight corner
cells). -/
def cornerNeighbors (p : Position) : List Position :=
  if p = ⟨11, 6⟩ then [⟨10, 5⟩]
  else if p = ⟨10, 5⟩ then [⟨11, 6⟩]
  else if p = ⟨11, 10⟩ then [⟨10, 11⟩]
  else if p = ⟨10, 11⟩ then [⟨11, 10⟩]
  else if p = ⟨5, 6⟩ then [⟨6, 5⟩]
  else if p = ⟨6, 5⟩ then [⟨5, 6⟩]
  else if p = ⟨5, 10⟩ then [⟨6, 11⟩]
  else if p = ⟨6, 11⟩ then [⟨5, 10⟩]
  else []

/-- Orthogonal neighbors are adjacent; diagonal neighbors are adjacent
when at least one endpoint is a campsite. -/
def areAdjacent (pos1 pos2 : Position) : Bool :=
  let dx := (pos1.x - pos2.x).natAbs
  let dy := (pos1.y - pos2.y).natAbs
  if (dx = 1 ∧ dy = 0) ∨ (dx = 0 ∧ dy = 1) then true
  else if dx = 1 ∧ dy = 1 then decide (pos1 ∈ campsites) || decide (pos2 ∈ campsites)
  else false

def isStraightLine (fromPos toPos : Position) : Bool :=
  decide (fromPos.x = toPos.x) || decide (fromPos.y = toPos.y)

/-- Integer indices strictly between a and b (exclusive on both ends). -/
def betweenIdx (a b : Int) : List Int :=
  let lo := min a b
  let hi := max a b
  (List.range (hi - lo - 1).toNat).map fun k : Nat => lo + 1 + (k : Int)

/-- Body of the horizontal leg of isPathClear: each intermediate column
must hold an existing, unoccupied railway cell (raw row access can
throw). -/
def pathScanH (b : Board) (x : Int) : List Int → Except Unit Bool
  | [] => pure true
  | y :: ys => do
      let row ← rawRow b x
      match (listIdx? row y).join with
      | none => pure false
      | some node =>
          if node.piece.isSome then pure false
          else if !isRailwayNode x y then pure false
          else pathScanH b x ys

/-- Body of the vertical leg of isPathClear. -/
def pathScanV (b : Board) (y : Int) : List Int → Except Unit Bool
  | [] => pure true
  | x :: xs => do
      let row ← rawRow b x
      match (listIdx? row y).join with
      | none => pure false
      | some node =>
          if node.piece.isSome then pure false
          else if !isRailwayNode x y then pure false
          else pathScanV b y xs

/-- isPathClear: a straight railway run between two cells with every
intermediate cell existing, unoccupied, and on the railway. -/
def isPathClearE (b : Board) (fromPos toPos : Position) : Except Unit Bool :=
  if fromPos.x = toPos.x then pathScanH b fromPos.x (betweenIdx fromPos.y toPos.y)
  else if fromPos.y = toPos.y then pathScanV b fromPos.y (betweenIdx fromPos.x toPos.x)
  else pure false

/-! ## Railway breadth-first search (findRailwayPath) -/

/-- Condition for the BFS to take a horizontal orthogonal step onto v:
on-grid, existing cell, horizontal rail on both ends, and unoccupied
unless v is the destination. -/
def orthoOkH (b : Board) (toPos curr v : Position) : Bool :=
  isValidPos v.x v.y && (chk b v).isSome
  && isHorizontalRailway curr.x curr.y && isHorizontalRailway v.x v.y
  && ((cellPiece b v).isNone || decide (v = toPos))

/-- Condition for the BFS to take a vertical orthogonal step onto v. -/
def orthoOkV (b : Board) (toPos curr v : Position) : Bool :=
  isValidPos v.x v.y && (chk b v).isSome
  && isVerticalRailway curr.x curr.y && isVerticalRailway v.x v.y
  && ((cellPiece b v).isNone || decide (v = toPos))

/-- Condition for the BFS to take a curved corner step onto v: existing
railway cell, unoccupied unless v is the destination. -/
def cornerOk (b : Board) (toPos v : Position) : Bool :=
  (chk b v).isSome && isRailwayNode v.x v.y
  && ((cellPiece b v).isNone || decide (v = toPos))

/-- Enqueue one candidate: when its step condition holds and it is not
yet visited, append it to the frontier and mark it visited. -/
def push1 (st : List Position × Finset Position) (ok : Bool) (v : Position) :
    List Position × Finset Position :=
  if ok ∧ v ∉ st.2 then (st.1 ++ [v], insert v st.2) else st

/-- One BFS expansion: try the four orthogonal directions in source
order (0,1), (0,-1), (1,0), (-1,0), then the curved corner neighbors;
returns the newly enqueued cells and the updated visited set. -/
def expand (b : Board) (toPos curr : Position) (vis : Finset Position) :
    List Position × Finset Position :=
  let s1 := push1 ([], vis) (orthoOkH b toPos curr ⟨curr.x, curr.y + 1⟩) ⟨curr.x, curr.y + 1⟩
  let s2 := push1 s1 (orthoOkH b toPos curr ⟨curr.x, curr.y - 1⟩) ⟨curr.x, curr.y - 1⟩
  let s3 := push1 s2 (orthoOkV b toPos curr ⟨curr.x + 1, curr.y⟩) ⟨curr.x + 1, curr.y⟩
  let s4 := push1 s3 (orthoOkV b toPos curr ⟨curr.x - 1, curr.y⟩) ⟨curr.x - 1, curr.y⟩
  (cornerNeighbors curr).foldl (fun st v => push1 st (cornerOk b toPos v) v) s4

/-- The BFS work loop with an explicit iteration bound.  Every iteration
pops one cell and only enqueues fresh on-grid cells, so the loop runs at
most 290 times (289 grid cells plus the initial pop); the source while
loop terminates for the same reason. -/
def bfsFuel (b : Board) (toPos : Position) : Nat → List Position → Finset Position → Bool
  | 0, _, _ => false
  | _ + 1, [], _ => false
  | fuel + 1, curr :: rest, vis =>
      if curr = toPos then true
      else
        let st := expand b toPos curr vis
        bfsFuel b toPos fuel (rest ++ st.1) st.2

/-- findRailwayPath: breadth-first search over the railway graph used by
Engineers; both endpoints must be railway cells. -/
def findRailwayPath (b : Board) (fromPos toPos : Position) : Bool :=
  if !isRailwayNode fromPos.x fromPos.y || !isRailwayNode toPos.x toPos.y then false
  else bfsFuel b toPos 290 [fromPos] {fromPos}

/-! ## Move legality (isValidMove) -/

/-- Only seats 0/2 and 1/3 are teammates. -/
def isTeammate (p1 p2 : Nat) : Bool :=
  (decide (p1 = 0) && decide (p2 = 2)) || (decide (p1 = 2) && decide (p2 = 0))
  || (decide (p1 = 1) && decide (p2 = 3)) || (decide (p1 = 3) && decide (p2 = 1))

/-- Destination is an HQ belonging to the mover's own team. -/
def hqEntryBlocked (toPos : Position) (toNode : BoardNode) (piece : Piece) : Bool :=
  decide (toNode.type = BoardNodeType.HQ) &&
    (match getHQOwner toPos.x toPos.y with
     | some owner => decide (owner = piece.player) || decide ((piece.player + 2) % 4 = owner)
     | none => false)

/-- Destination is an occupied campsite (immune to entry and attack). -/
def campsiteBlocked (toNode : BoardNode) : Bool :=
  decide (toNode.type = BoardNodeType.Campsite) && toNode.piece.isSome

/-- Destination holds a piece of the mover's own seat or of a teammate
seat. -/
def hostileBlocked (toNode : BoardNode) (piece : Piece) : Bool :=
  match toNode.piece with
  | some q => decide (q.player = piece.player) || isTeammate piece.player q.player
  | none => false

/-- The nine central intersections where stopping is allowed. -/
def isCentralStation (r c : Int) : Bool :=
  (decide (r = 6) || decide (r = 8) || decide (r = 10))
    && (decide (c = 6) || decide (c = 8) || decide (c = 10))

/-- Destination lies in the central 6..10 x 6..10 rectangle but is not
one of the nine stations (pass-through track: stopping forbidden). -/
def centralStopForbidden (toPos : Position) : Bool :=
  decide (6 ≤ toPos.x) && decide (toPos.x ≤ 10)
    && decide (6 ≤ toPos.y) && decide (toPos.y ≤ 10)
    && !isCentralStation toPos.x toPos.y

/-- Front-row center cells cannot take a single orthogonal step straight
into the hub. -/
def frontRowBlocked (fromPos toPos : Position) : Bool :=
  (decide (fromPos.x = 5) && (decide (fromPos.y = 7) || decide (fromPos.y = 9)) && decide (toPos.x = 6))
  || (decide (fromPos.x = 11) && (decide (fromPos.y = 7) || decide (fromPos.y = 9)) && decide (toPos.x = 10))
  || (decide (fromPos.y = 5) && (decide (fromPos.x = 7) || decide (fromPos.x = 9)) && decide (toPos.y = 6))
  || (decide (fromPos.y = 11) && (decide (fromPos.x = 7) || decide (fromPos.x = 9)) && decide (toPos.y = 10))

/-- Engineer jamming rule: the named front-row Engineer cells cannot
move while both hub-side orthogonal neighbors are occupied.  The raw
board[r][c] row accesses can throw, hence the Except result. -/
def engineerJamE (b : Board) (fromPos : Position) : Except Unit Bool :=
  if fromPos.x = 11 ∧ fromPos.y = 7 then do
    let p1 ← rawPieceAt b 11 6
    let p2 ← rawPieceAt b 11 8
    pure (p1 && p2)
  else if fromPos.x = 11 ∧ fromPos.y = 9 then do
    let p1 ← rawPieceAt b 11 8
    let p2 ← rawPieceAt b 11 10
    pure (p1 && p2)
  else if fromPos.x = 5 ∧ fromPos.y = 7 then do
    let p1 ← rawPieceAt b 5 6
    let p2 ← rawPieceAt b 5 8
    pure (p1 && p2)
  else if fromPos.x = 5 ∧ fromPos.y = 9 then do
    let p1 ← rawPieceAt b 5 8
    let p2 ← rawPieceAt b 5 10
    pure (p1 && p2)
  else if fromPos.y = 5 ∧ fromPos.x = 7 then do
    let p1 ← rawPieceAt b 6 5
    let p2 ← rawPieceAt b 8 5
    pure (p1 && p2)
  else if fromPos.y = 5 ∧ fromPos.x = 9 then do
    let p1 ← rawPieceAt b 8 5
    let p2 ← rawPieceAt b 10 5
    pure (p1 && p2)
  else if fromPos.y = 11 ∧ fromPos.x = 7 then do
    let p1 ← rawPieceAt b 6 11
    let p2 ← rawPieceAt b 8 11
    pure (p1 && p2)
  else if fromPos.y = 11 ∧ fromPos.x = 9 then do
    let p1 ← rawPieceAt b 8 11
    let p2 ← rawPieceAt b 10 11
    pure (p1 && p2)
  else pure false

/-- Entry-side validation of one curved corner for a non-Engineer: the
mover must approach along the through line of the correct zone edge and
must not start inside the central zone. -/
def cornerEntryOk (fromPos c1 : Position) : Bool :=
  !((decide (c1.x = 5) || decide (c1.x = 11)) && !decide (fromPos.y = c1.y))
  && !((decide (c1.y = 5) || decide (c1.y = 11)) && !decide (fromPos.x = c1.x))
  && isStraightLine fromPos c1
  && !(decide (6 ≤ fromPos.x) && decide (fromPos.x ≤ 10)
        && decide (6 ≤ fromPos.y) && decide (fromPos.y ≤ 10))
  && (!(decide (c1.x = 11) && decide (c1.y = 6)) || (decide (fromPos.y = 6) && decide (11 ≤ fromPos.x)))
  && (!(decide (c1.x = 11) && decide (c1.y = 10)) || (decide (fromPos.y = 10) && decide (11 ≤ fromPos.x)))
  && (!(decide (c1.x = 5) && decide (c1.y = 6)) || (decide (fromPos.y = 6) && decide (fromPos.x ≤ 5)))
  && (!(decide (c1.x = 5) && decide (c1.y = 10)) || (decide (fromPos.y = 10) && decide (fromPos.x ≤ 5)))
  && (!(decide (c1.x = 6) && decide (c1.y = 5)) || (decide (fromPos.x = 6) && decide (fromPos.y ≤ 5)))
  && (!(decide (c1.x = 10) && decide (c1.y = 5)) || (decide (fromPos.x = 10) && decide (fromPos.y ≤ 5)))
  && (!(decide (c1.x = 6) && decide (c1.y = 11)) || (decide (fromPos.x = 6) && decide (11 ≤ fromPos.y)))
  && (!(decide (c1.x = 10) && decide (c1.y = 11)) || (decide (fromPos.x = 10) && decide (11 ≤ fromPos.y)))

/-- Exit-side validation of one curved corner: the mover must leave
along the through line, outward from the center, staying on the outer
loop of the destination zone. -/
def cornerExitOk (toPos c2 : Position) : Bool :=
  (!(decide (c2.x = 5) || decide (c2.x = 11))
     || (decide (toPos.y = c2.y)
          && !(decide (c2.x = 5) && decide (5 < toPos.x))
          && !(decide (c2.x = 11) && decide (toPos.x < 11))))
  && (!(decide (c2.y = 5) || decide (c2.y = 11))
     || (decide (toPos.x = c2.x)
          && !(decide (c2.y = 5) && decide (5 < toPos.y))
          && !(decide (c2.y = 11) && decide (11 < toPos.y))))
  && isStraightLine toPos c2
  && (if c2.x = 5 then decide (toPos.y = c2.y)
      else if c2.x = 11 then decide (toPos.y = c2.y)
      else if c2.y = 5 then decide (toPos.x = c2.x)
      else if c2.y = 11 then decide (toPos.x = c2.x)
      else true)

/-- The non-Engineer corner loop of isValidMove (Case 3): try each
corner entry in Map order, validating both straight legs around the
curve; raw cell reads on the corner cells can throw. -/
def cornerCaseE (b : Board) (fromPos toPos : Position) :
    List (Position × Position) → Except Unit Bool
  | [] => pure false
  | (c1, c2) :: rest =>
      if !cornerEntryOk fromPos c1 then cornerCaseE b fromPos toPos rest
      else if !cornerExitOk toPos c2 then cornerCaseE b fromPos toPos rest
      else
        (if fromPos = c1 then pure true
         else rawPieceAt b c1.x c1.y >>= fun occ =>
           if occ then pure false else isPathClearE b fromPos c1) >>= fun leg1ok =>
        if !leg1ok then cornerCaseE b fromPos toPos rest
        else
          (if toPos = c2 then pure true
           else rawPieceAt b c2.x c2.y >>= fun occ =>
             if occ then pure false else isPathClearE b c2 toPos) >>= fun leg2ok =>
          if leg2ok then pure true else cornerCaseE b fromPos toPos rest

/-- isValidMove, with the throwing raw accesses made explicit: Except
error marks the code paths where the source would raise a TypeError
(raw indexing of a missing row). -/
def isValidMoveE (b : Board) (fromPos toPos : Position) (piece : Piece) :
    Except Unit Bool :=
  if !isValidPos fromPos.x fromPos.y || !isValidPos toPos.x toPos.y then pure false
  else
    match chk b fromPos, chk b toPos with
    | some fromNode, some toNode =>
      match fromNode.piece with
      | none => pure false
      | some q =>
        if !decide (q.id = piece.id) then pure false
        else if decide (piece.type = PieceType.Flag) || decide (piece.type = PieceType.Mine) then pure false
        else if decide (fromNode.type = BoardNodeType.HQ) then pure false
        else if hqEntryBlocked toPos toNode piece then pure false
        else if campsiteBlocked toNode then pure false
        else if hostileBlocked toNode piece then pure false
        else if centralStopForbidden toPos then pure false
        else if areAdjacent fromPos toPos && frontRowBlocked fromPos toPos then pure false
        else
          (if decide (piece.type = PieceType.Engineer) then engineerJamE b fromPos
           else pure false) >>= fun jam =>
          if jam then pure false
          else if areAdjacent fromPos toPos then pure true
          else if isRailwayNode fromPos.x fromPos.y && isRailwayNode toPos.x toPos.y then
            if decide (piece.type = PieceType.Engineer) then pure (findRailwayPath b fromPos toPos)
            else if (cornerNeighbors fromPos).any fun n => decide (n = toPos) then pure true
            else if isStraightLine fromPos toPos then isPathClearE b fromPos toPos
            else cornerCaseE b fromPos toPos cornerEntries
          else pure false
    | _, _ => pure false

/-- The Boolean view of isValidMove used by callers (the error case
never occurs on well-formed 17-row boards, as proved below). -/
def isValidMove (b : Board) (fromPos toPos : Position) (piece : Piece) : Bool :=
  match isValidMoveE b fromPos toPos piece with
  | Except.ok r => r
  | Except.error _ => false

/-! ## Combat resolution (resolveCombat) -/

/-- Result details of a battle: winner/loser, flag capture and
commander-death flags. -/
structure BattleResult where
  winner : Option Piece
  loser : Option Piece
  isFlagCapture : Bool
  isCommanderDeath : Bool
deriving DecidableEq, Repr

/-- Full return value of resolveCombat. -/
structure CombatOutcome where
  attackerSurvives : Bool
  defenderSurvives : Bool
  details : BattleResult
deriving DecidableEq, Repr

/-- resolveCombat: ordered case analysis from the source - Bomb on
either side, Engineer vs Mine, any attacker vs Mine, Flag defender,
then the numeric rank comparison. -/
def resolveCombat (attacker defender : Piece) : CombatOutcome :=
  let s : Bool × Bool × Bool × Bool :=
    if attacker.type = PieceType.Bomb ∨ defender.type = PieceType.Bomb then
      (false, false, false,
        decide (attacker.type = PieceType.Commander) || decide (defender.type = PieceType.Commander))
    else if attacker.type = PieceType.Engineer ∧ defender.type = PieceType.Mine then
      (true, false, false, false)
    else if defender.type = PieceType.Mine then
      (false, true, false, decide (attacker.type = PieceType.Commander))
    else if defender.type = PieceType.Flag then
      (true, false, true, false)
    else if defender.type < attacker.type then
      (true, false, false, decide (defender.type = PieceType.Commander))
    else if attacker.type < defender.type then
      (false, true, false, decide (attacker.type = PieceType.Commander))
    else
      (false, false, false, decide (attacker.type = PieceType.Commander))
  { attackerSurvives := s.1
    defenderSurvives := s.2.1
    details :=
      { winner := if s.1 then some attacker else if s.2.1 then some defender else none
        loser := if s.1 = false then some attacker else if s.2.1 = false then some defender else none
        isFlagCapture := s.2.2.1
        isCommanderDeath := s.2.2.2 } }

/-! ## Search move simulation (AIEvaluator.simulateMove) -/

/-- simulateMove: the simplified battle resolution used inside the
search; it mutates a cloned board in place, modelled functionally.  The
one raw destination read in the empty-cell branch is modelled as the
flattened optional lookup. -/
def simulateMove (b : Board) (fromPos toPos : Position) : Board :=
  match chk b fromPos with
  | none => b
  | some source =>
    match source.piece with
    | none => b
    | some sp =>
      match chk b toPos with
      | some target =>
        match target.piece with
        | some tp =>
          if tp.type = PieceType.Flag ∨ tp.type = PieceType.Mine then
            if sp.type = PieceType.Engineer ∧ tp.type = PieceType.Mine then
              setCell b toPos.x toPos.y (some { target with piece := some sp })
            else if tp.type = PieceType.Mine then
              setCell b fromPos.x fromPos.y (some { source with piece := none })
            else
              setCell b toPos.x toPos.y (some { target with piece := some sp })
          else if tp.type = PieceType.Bomb ∨ sp.type = PieceType.Bomb then
            setCell (setCell b fromPos.x fromPos.y (some { source with piece := none }))
              toPos.x toPos.y (some { target with piece := none })
          else if tp.type < sp.type then
            setCell (setCell b toPos.x toPos.y (some { target with piece := some sp }))
              fromPos.x fromPos.y (some { source with piece := none })
          else if sp.type < tp.type then
            setCell b fromPos.x fromPos.y (some { source with piece := none })
          else
            setCell (setCell b fromPos.x fromPos.y (some { source with piece := none }))
              toPos.x toPos.y (some { target with piece := none })
        | none =>
          let b1 := setCell b toPos.x toPos.y (some { target with piece := some sp })
          setCell b1 fromPos.x fromPos.y (some { source with piece := none })
      | none =>
        setCell b fromPos.x fromPos.y (some { source with piece := none })

/-! ## Game termination (checkGameOver) and turn rotation -/

/-- All 289 grid positions in row-major order, matching the nested scan
loops of the source. -/
def allPositions : List Position :=
  (List.range 17).flatMap fun r => (List.range 17).map fun c => ⟨Int.ofNat r, Int.ofNat c⟩

/-- getPossibleMoves: every destination accepted by isValidMove for the
piece standing at pos. -/
def getPossibleMoves (b : Board) (pos : Position) : List Position :=
  match cellPiece b pos with
  | none => []
  | some piece => allPositions.filter fun t => isValidMove b pos t piece

/-- Scan flag of checkGameOver: seat pid still owns its Flag. -/
def hasFlagB (b : Board) (pid : Nat) : Bool :=
  allPositions.any fun pos =>
    match cellPiece b pos with
    | some p => decide (p.player = pid) && decide (p.type = PieceType.Flag)
    | none => false

/-- Scan flag of checkGameOver: seat pid still owns any piece. -/
def hasPiecesB (b : Board) (pid : Nat) : Bool :=
  allPositions.any fun pos =>
    match cellPiece b pos with
    | some p => decide (p.player = pid)
    | none => false

/-- Scan flag of checkGameOver: seat pid owns a non-Flag, non-Mine piece
with at least one legal move. -/
def hasMovableB (b : Board) (pid : Nat) : Bool :=
  allPositions.any fun pos =>
    match cellPiece b pos with
    | some p =>
        decide (p.player = pid) && !decide (p.type = PieceType.Flag)
          && !decide (p.type = PieceType.Mine) && !(getPossibleMoves b pos).isEmpty
    | none => false

/-- A seat stays active only with its flag, some piece, and a movable
piece. -/
def playerAlive (b : Board) (pid : Nat) : Bool :=
  hasFlagB b pid && hasPiecesB b pid && hasMovableB b pid

/-- Return value of checkGameOver. -/
structure GameOverResult where
  isOver : Bool
  winnerTeam : Option Nat
  newDeadPlayers : List Nat
deriving DecidableEq, Repr

/-- checkGameOver: classify each not-yet-dead seat, then test whether a
whole team (seats 0/2 or 1/3) is dead. -/
def checkGameOver (b : Board) (deadPlayers : List Nat) : GameOverResult :=
  let newlyDead := (List.range 4).filter fun pid =>
    !decide (pid ∈ deadPlayers) && !playerAlive b pid
  let allDead := deadPlayers ++ newlyDead
  let team0Alive := !decide (0 ∈ allDead) || !decide (2 ∈ allDead)
  let team1Alive := !decide (1 ∈ allDead) || !decide (3 ∈ allDead)
  if !team0Alive then { isOver := true, winnerTeam := some 1, newDeadPlayers := newlyDead }
  else if !team1Alive then { isOver := true, winnerTeam := some 0, newDeadPlayers := newlyDead }
  else { isOver := false, winnerTeam := none, newDeadPlayers := newlyDead }

/-- Scan used by getNextActivePlayer: seat pid has some piece other than
its Flag left on the board. -/
def seatHasNonFlagPiece (b : Board) (pid : Nat) : Bool :=
  allPositions.any fun pos =>
    match cellPiece b pos with
    | some p => decide (p.player = pid) && !decide (p.type = PieceType.Flag)
    | none => false

/-- getNextActivePlayer: the first seat after currentPlayer in rotation
order that still has a non-Flag piece, falling back to currentPlayer. -/
def getNextActivePlayer (b : Board) (currentPlayer : Nat) : Nat :=
  (([1, 2, 3, 4] : List Nat).findSome? fun i =>
    let nextPlayer := (currentPlayer + i) % 4
    if seatHasNonFlagPiece b nextPlayer then some nextPlayer else none).getD currentPlayer

/-! ## AI piece memory (AIMemory, src/unnamed/part_001) -/

/-- One PieceMemory record: what the AI believes about a piece. -/
structure PieceMemory where
  pieceId : Nat
  owner : Nat
  minRank : Nat
  maxRank : Nat
  possibleTypes : Finset Nat
  isConfirmed : Bool
  confirmedType : Option Nat
  isBombCandidate : Bool
  isEngineerCandidate : Bool
  defeatedOurRank : Nat
  wasProbed : Bool
  probeCount : Nat
  isConfirmedMine : Bool
  isInBackRows : Bool
  hasMoved : Bool
deriving DecidableEq

/-- The memory store: the Map of piece id to record, in insertion
order. -/
abbrev Mem := List PieceMemory

/-- Map lookup this.memories.get(id). -/
def getMem (m : Mem) (id : Nat) : Option PieceMemory :=
  m.find? fun r => decide (r.pieceId = id)

/-- Mutating the record held under id (all update functions preserve
pieceId). -/
def updMem (m : Mem) (id : Nat) (f : PieceMemory → PieceMemory) : Mem :=
  m.map fun r => if r.pieceId = id then f r else r

/-- The full twelve-type possibility set every record starts with. -/
def allTypes : Finset Nat :=
  {PieceType.Commander, PieceType.Corps, PieceType.Division, PieceType.Brigade,
   PieceType.Regiment, PieceType.Battalion, PieceType.Company, PieceType.Platoon,
   PieceType.Engineer, PieceType.Bomb, PieceType.Mine, PieceType.Flag}

/-- The fresh record AIMemory.reset builds for one piece. -/
def resetRecord (p : Piece) : PieceMemory :=
  { pieceId := p.id
    owner := p.player
    minRank := PieceType.Engineer
    maxRank := PieceType.Commander
    possibleTypes := allTypes
    isConfirmed := false
    confirmedType := none
    isBombCandidate := true
    isEngineerCandidate := true
    defeatedOurRank := 0
    wasProbed := false
    probeCount := 0
    isConfirmedMine := false
    isInBackRows := false
    hasMoved := false }

/-- AIMemory.reset: one fresh record per piece. -/
def memReset (allPieces : List Piece) : Mem :=
  allPieces.map resetRecord

/-- AIMemory.markPieceMoved: a moved piece can no longer be a Mine or
the Flag. -/
def markPieceMoved (m : Mem) (pieceId : Nat) : Mem :=
  updMem m pieceId fun r =>
    { r with hasMoved := true
             possibleTypes := (r.possibleTypes.erase PieceType.Mine).erase PieceType.Flag }

/-- AIMemory.markBackRowPieces: flag every piece standing in the back
two rows of its side (rows are compared against board.length, and seats
0/3 count as bottom, exactly as in the source). -/
def markBackRowPieces (m : Mem) (b : Board) (playerId : Nat) : Mem :=
  let rows := b.length
  (b.enum.flatMap fun rowPair =>
      rowPair.2.filterMap fun cell =>
        (cell.bind fun n => n.piece).map fun p => (rowPair.1, p)).foldl
    (fun acc rp =>
      let r := rp.1
      let p := rp.2
      let isPlayerBottom := p.player = 0 ∨ p.player = 3
      let isBackRow : Bool :=
        if isPlayerBottom then decide ((rows : Int) - 2 ≤ (r : Int)) else decide (r ≤ 1)
      updMem acc p.id fun rec => { rec with isInBackRows := isBackRow })
    m

/-- The battle result names this piece id as winner. -/
def winnerIs (result : BattleResult) (id : Nat) : Bool :=
  match result.winner with
  | some w => decide (w.id = id)
  | none => false

/-- AIMemory updateWinner: a piece that won a battle moved and attacked,
so it is neither a Mine nor the Flag. -/
def updateWinnerFields (r : PieceMemory) : PieceMemory :=
  { r with possibleTypes := (r.possibleTypes.erase PieceType.Mine).erase PieceType.Flag }

/-- AIMemory.processBattle: probe tracking, the confirmed-Mine
heuristic, then the winner/tie bookkeeping, in source mutation order. -/
def processBattle (m : Mem) (attacker defender : Piece) (result : BattleResult) : Mem :=
  match getMem m attacker.id, getMem m defender.id with
  | some attM, some defM =>
    let ownerDiff := ¬(defM.owner = attM.owner)
    let m1 :=
      if attacker.type = PieceType.Engineer then
        updMem m defender.id fun r => { r with wasProbed := true }
      else m
    let m2 := updMem m1 defender.id fun r => { r with probeCount := r.probeCount + 1 }
    let m3 :=
      if winnerIs result defender.id ∧ ¬(attacker.type = PieceType.Engineer) then
        updMem m2 defender.id fun r =>
          if r.isInBackRows then
            { r with isConfirmedMine := true
                     isConfirmed := true
                     confirmedType := some PieceType.Mine
                     possibleTypes := {PieceType.Mine} }
          else r
      else m2
    if winnerIs result attacker.id then
      let m4 := updMem m3 attacker.id updateWinnerFields
      if ownerDiff then
        updMem m4 attacker.id fun r =>
          { r with defeatedOurRank := max r.defeatedOurRank defender.type }
      else m4
    else if winnerIs result defender.id then
      let m4 := updMem m3 defender.id updateWinnerFields
      if ownerDiff then
        updMem m4 defender.id fun r =>
          { r with defeatedOurRank := max r.defeatedOurRank attacker.type }
      else m4
    else
      if ownerDiff then
        updMem (updMem m3 defender.id fun r =>
            { r with defeatedOurRank := max r.defeatedOurRank attacker.type })
          attacker.id fun r =>
            { r with defeatedOurRank := max r.defeatedOurRank defender.type }
      else m3
  | _, _ => m

/-- AIMemory.sync: collapse the record of every revealed piece on the
board to its observed type. -/
def memSync (m : Mem) (b : Board) : Mem :=
  (b.flatMap fun row => row.filterMap fun cell => cell.bind fun n => n.piece).foldl
    (fun acc p =>
      if p.isRevealed then
        updMem acc p.id fun r =>
          { r with isConfirmed := true
                   confirmedType := some p.type
                   minRank := p.type
                   maxRank := p.type
                   possibleTypes := {p.type} }
      else acc)
    m

/-- The four mutating AIMemory operations, with their call arguments. -/
inductive MemOp where
  | moved (pieceId : Nat)
  | backRows (b : Board) (playerId : Nat)
  | battle (attacker defender : Piece) (result : BattleResult)
  | syncOp (b : Board)
deriving Repr

/-- Whether an operation is the sync overwrite. -/
def MemOp.isSync : MemOp → Bool
  | .syncOp _ => true
  | _ => false

/-- Apply one memory operation. -/
def applyOp (m : Mem) : MemOp → Mem
  | .moved id => markPieceMoved m id
  | .backRows b pid => markBackRowPieces m b pid
  | .battle a d res => processBattle m a d res
  | .syncOp b => memSync m b

/-- Apply a sequence of memory operations from left to right. -/
def applyOps (m : Mem) (ops : List MemOp) : Mem :=
  ops.foldl applyOp m

/-! ## Minimax with alpha-beta pruning (AIEvaluator.minimax) -/

/-- Score values: JavaScript numbers including the -Infinity / Infinity
accumulators and window bounds. -/
abbrev EV := WithBot (WithTop Int)

/-- Coerce a finite evaluation score into the extended line. -/
def toEV (z : Int) : EV := ((z : WithTop Int) : EV)

/-- The search primitives minimax is built from: ordered move
generation, board simulation, seat rotation, and the leaf evaluator.
The alpha-beta equivalence below holds uniformly in these, so it covers
the concrete getPlayerMoves / simulateMove / getNextActivePlayer /
evaluateBoard instantiation of the source. -/
structure SearchEnv (B M : Type) where
  moves : B → Nat → List M
  order : B → Nat → List M → List M
  simulate : B → M → B
  next : B → Nat → Nat
  evalB : B → Int

/-- The maximizing loop of minimax: fold the children, raising maxEval
and alpha, breaking when beta ≤ alpha. -/
def abMaxLoop {M : Type} (child : M → EV → EV → EV) (β : EV) :
    List M → EV → EV → EV
  | [], _, m => m
  | mv :: rest, α, m =>
      let v := child mv α β
      let m' := max m v
      let α' := max α v
      if β ≤ α' then m' else abMaxLoop child β rest α' m'

/-- The minimizing loop of minimax: fold the children, lowering minEval
and beta, breaking when beta ≤ alpha. -/
def abMinLoop {M : Type} (child : M → EV → EV → EV) (α : EV) :
    List M → EV → EV → EV
  | [], _, m => m
  | mv :: rest, β, m =>
      let v := child mv α β
      let m' := min m v
      let β' := min β v
      if β' ≤ α then m' else abMinLoop child α rest β' m'

/-- AIEvaluator.minimax with alpha-beta pruning: depth-0 leaves evaluate
the board, a seat with no moves is scored with a fixed +-10000
adjustment, the ordered move list is truncated to 20, and the next
seat's side is our own when it is the root seat or its teammate. -/
def minimaxAB {B M : Type} (env : SearchEnv B M) (orig : Nat) :
    Nat → B → EV → EV → Bool → Nat → EV
  | 0, b, _, _, _, _ => toEV (env.evalB b)
  | depth + 1, b, α, β, maximizingPlayer, currentPlayerId =>
      let moves := env.moves b currentPlayerId
      if moves.isEmpty then
        if maximizingPlayer then toEV (env.evalB b - 10000) else toEV (env.evalB b + 10000)
      else
        let movesToEvaluate := (env.order b currentPlayerId moves).take 20
        let child := fun mv α' β' =>
          let simBoard := env.simulate b mv
          let nextPlayer := env.next simBoard currentPlayerId
          let isNextMax := decide (nextPlayer = orig) || decide ((nextPlayer + 2) % 4 = orig)
          minimaxAB env orig depth simBoard α' β' isNextMax nextPlayer
        if maximizingPlayer then abMaxLoop child β movesToEvaluate α ⊥
        else abMinLoop child α movesToEvaluate β ⊤

/-- The plain maximizing fold with no window and no cutoff. -/
def plainMaxLoop {M : Type} (child : M → EV) : List M → EV → EV
  | [], m => m
  | mv :: rest, m => plainMaxLoop child rest (max m (child mv))

/-- The plain minimizing fold with no window and no cutoff. -/
def plainMinLoop {M : Type} (child : M → EV) : List M → EV → EV
  | [], m => m
  | mv :: rest, m => plainMinLoop child rest (min m (child mv))

/-- The identical search without pruning: same leaves, same no-move
scoring, same ordered and truncated move list at every node, but alpha
and beta pinned at -Infinity / Infinity and no cutoff. -/
def minimaxPlain {B M : Type} (env : SearchEnv B M) (orig : Nat) :
    Nat → B → Bool → Nat → EV
  | 0, b, _, _ => toEV (env.evalB b)
  | depth + 1, b, maximizingPlayer, currentPlayerId =>
      let moves := env.moves b currentPlayerId
      if moves.isEmpty then
        if maximizingPlayer then toEV (env.evalB b - 10000) else toEV (env.evalB b + 10000)
      else
        let movesToEvaluate := (env.order b currentPlayerId moves).take 20
        let child := fun mv =>
          let simBoard := env.simulate b mv
          let nextPlayer := env.next simBoard currentPlayerId
          let isNextMax := decide (nextPlayer = orig) || decide ((nextPlayer + 2) % 4 = orig)
          minimaxPlain env orig depth simBoard isNextMax nextPlayer
        if maximizingPlayer then plainMaxLoop child movesToEvaluate ⊥
        else plainMinLoop child movesToEvaluate ⊤

/-! ## The railway step relation (specification side of claim C7) -/

/-- One admissible edge of the Engineer railway graph, as the spec
describes it: an orthogonal step with matching rail orientation on both
cells, or a curved corner connection; the target cell must exist and be
unoccupied unless it is the destination of the whole move. -/
def railStep (b : Board) (toPos u v : Position) : Prop :=
  ((v = ⟨u.x, u.y + 1⟩ ∨ v = ⟨u.x, u.y - 1⟩) ∧ orthoOkH b toPos u v = true)
  ∨ ((v = ⟨u.x + 1, u.y⟩ ∨ v = ⟨u.x - 1, u.y⟩) ∧ orthoOkV b toPos u v = true)
  ∨ (v ∈ cornerNeighbors u ∧ cornerOk b toPos v = true)

/-- A railway path of any number of turns from u to the destination:
the reflexive-transitive closure of the admissible edges. -/
def railReach (b : Board) (toPos u : Position) : Prop :=
  Relation.ReflTransGen (railStep b toPos) u toPos

/-! ## Initial board (createInitialBoard) and concrete test fixtures -/

/-- createInitialBoard: the empty 17x17 cross with terrain
classification. -/
def createInitialBoard : Board :=
  (List.range 17).map fun r =>
    (List.range 17).map fun c =>
      let ri : Int := r
      let ci : Int := c
      if (isTopZone ri ci || isBottomZone ri ci || isLeftZone ri ci || isRightZone ri ci)
          || isCentralRailway ri ci then
        some
          { type :=
              if decide ((⟨ri, ci⟩ : Position) ∈ campsites) then BoardNodeType.Campsite
              else if decide ((⟨ri, ci⟩ : Position) ∈ hqs) then BoardNodeType.HQ
              else if isRailwayNode ri ci then BoardNodeType.Station
              else BoardNodeType.Normal
            isRailway := isRailwayNode ri ci
            piece := none }
      else none

/-- Place a piece on an existing cell of a board. -/
def placePiece (b : Board) (x y : Int) (p : Piece) : Board :=
  match chk b ⟨x, y⟩ with
  | some n => setCell b x y (some { n with piece := some p })
  | none => b

/-- A Company of seat 0, used as a generic movable piece. -/
def companyP0 : Piece := ⟨2, PieceType.Company, 0, false⟩

/-- An Engineer of seat 0. -/
def engineerP0 : Piece := ⟨1, PieceType.Engineer, 0, false⟩

/-- A Bomb of seat 0. -/
def bombP0 : Piece := ⟨3, PieceType.Bomb, 0, false⟩

/-- A Mine of seat 1. -/
def mineP1 : Piece := ⟨4, PieceType.Mine, 1, false⟩

/-- A revealed Bomb of seat 1, for the memory sync counterexample. -/
def revealedBombP1 : Piece := ⟨6, PieceType.Bomb, 1, true⟩

/-- Board with a Company at the station (6,8). -/
def boardStation68 : Board := placePiece createInitialBoard 6 8 companyP0

/-- Board where seat 1 owns exactly one piece, a Mine at (6,12). -/
def boardMineOnly : Board := placePiece createInitialBoard 6 12 mineP1

/-- Board with a seat-0 Bomb at (11,6) adjacent to a seat-1 Mine at
(10,6). -/
def boardBombMine : Board :=
  placePiece (placePiece createInitialBoard 11 6 bombP0) 10 6 mineP1

/-- Board with a seat-0 Engineer on the railway at (12,6). -/
def boardEngineer : Board := placePiece createInitialBoard 12 6 engineerP0

/-- Board holding the revealed seat-1 Bomb at (6,12). -/
def boardRevealedBomb : Board := placePiece createInitialBoard 6 12 revealedBombP1

/-- Board with a seat-0 Company at (11,6) adjacent to the seat-1 Mine
at (10,6). -/
def boardCompanyMine : Board :=
  placePiece (placePiece createInitialBoard 11 6 companyP0) 10 6 mineP1

/-- A Platoon of seat 1, used as an unknown defender. -/
def platoonP1 : Piece := ⟨7, PieceType.Platoon, 1, false⟩

/-- Board with the seat-1 Platoon sitting on its back row at (0,7). -/
def boardBackRowPlatoon : Board := placePiece createInitialBoard 0 7 platoonP1

/-- A battle result recording that the defender Platoon beat the
attacking Company. -/
def defenderWinsResult : BattleResult := ⟨some platoonP1, some companyP0, false, false⟩

/-- Record narrowing: the rank interval is unchanged and the possible
type set only shrinks. -/
def MemNarrow (pm pm' : PieceMemory) : Prop :=
  pm'.minRank = pm.minRank ∧ pm'.maxRank = pm.maxRank ∧
    pm'.possibleTypes ⊆ pm.possibleTypes

/-- The composite update applied to a defender record when the
confirmed-Mine detection fires and the winner bookkeeping immediately
follows: collapse to the Mine singleton, then erase Mine and Flag. -/
def collapseThenWin (r : PieceMemory) : PieceMemory :=
  updateWinnerFields
    (if r.isInBackRows then
      { r with isConfirmedMine := true, isConfirmed := true,
               confirmedType := some PieceType.Mine,
               possibleTypes := {PieceType.Mine} }
    else r)

/-- The fail-soft alpha-beta approximation relation: r is the value
returned by the pruned search with window (alpha, beta) and v the true
(unpruned) value. Below alpha, r is an upper bound on v; inside the
window it is exact; above beta it is a lower bound. -/
def approxEV (α β r v : EV) : Prop :=
  (r ≤ α → v ≤ r) ∧ (α < r → r < β → r = v) ∧ (β ≤ r → r ≤ v)

/-- Invariant of one BFS expansion step, relating the produced state to
the starting visited set: visited only grows, every enqueued cell is
visited, the visited set grows by exactly the number of enqueued cells,
every new visited cell is enqueued, and every enqueued cell is an
admissible railway step from the expanded cell. -/
def ExpandInv (b : Board) (toPos : Position) (vis : Finset Position) (curr : Position)
    (st : List Position × Finset Position) : Prop :=
  vis ⊆ st.2 ∧ (∀ x ∈ st.1, x ∈ st.2) ∧ st.2.card = vis.card + st.1.length ∧
  (∀ x ∈ st.2, x ∈ vis ∨ x ∈ st.1) ∧ (∀ x ∈ st.1, railStep b toPos curr x)


/-! ## Helper lemmas about board cell updates -/

/-- Reading back the exact cell just written, provided the cell existed
(so both indices are in range). -/
theorem chk_setCell_self (b : Board) (x y : Int) (n : BoardNode) (v : Option BoardNode)
    (h : chk b ⟨x, y⟩ = some n) : chk (setCell b x y v) ⟨x, y⟩ = v := by
  unfold chk setCell listIdx? at *
  by_cases hx : x < 0
  · simp [hx] at h
  · simp only [hx, if_false] at h ⊢
    cases hrow : b[x.toNat]? with
    | none => simp [hrow] at h
    | some row =>
        simp only [hrow] at h ⊢
        by_cases hy : y < 0
        · simp [hy] at h
        · simp only [hy, if_false] at h ⊢
          cases hcell : row[y.toNat]? with
          | none => simp [hcell] at h
          | some cell =>
              have hxlen : x.toNat < b.length := by
                by_contra hc
                rw [List.getElem?_eq_none (Nat.le_of_not_lt hc)] at hrow
                exact Option.noConfusion hrow
              have hylen : y.toNat < row.length := by
                by_contra hc
                rw [List.getElem?_eq_none (Nat.le_of_not_lt hc)] at hcell
                exact Option.noConfusion hcell
              rw [List.getElem?_set]
              simp [hxlen, hylen, List.getElem?_set]

/-- Writes to one cell leave every other cell unchanged. -/
theorem chk_setCell_other (b : Board) (x y : Int) (v : Option BoardNode) (p : Position)
    (h : p ≠ ⟨x, y⟩) : chk (setCell b x y v) p = chk b p := by
  unfold chk setCell listIdx?
  by_cases hx : x < 0
  · cases hrow : (if x < 0 then none else b[x.toNat]?) with
    | none => rfl
    | some row => simp [hx] at hrow
  · cases hrow : b[x.toNat]? with
    | none => simp [hx, hrow]
    | some row =>
        simp only [hx, if_false, hrow]
        by_cases hpx : p.x < 0
        · simp [hpx]
        · simp only [hpx, if_false]
          by_cases hxx : p.x = x
          · have hnat : p.x.toNat = x.toNat := by rw [hxx]
            have hyy : p.y ≠ y := by
              intro hc
              exact h (by cases p; simp_all)
            rw [List.getElem?_set]
            simp only [hnat, if_pos rfl]
            by_cases hxlen : x.toNat < b.length
            · simp only [hxlen, if_true]
              by_cases hy : y < 0
              · simp only [hy, if_true]
                rw [← hnat] at hrow ⊢
                simp [hrow]
              · simp only [hy, if_false]
                by_cases hpy : p.y < 0
                · simp only [hpy, if_true]
                  rw [← hnat] at hrow ⊢
                  simp [hrow]
                · simp only [hpy, if_false]
                  have hyne : p.y.toNat ≠ y.toNat := by omega
                  rw [List.getElem?_set]
                  simp only [if_neg (by omega : ¬ y.toNat = p.y.toNat)]
                  rw [← hnat] at hrow ⊢
                  simp [hrow]
            · rw [List.getElem?_eq_none (Nat.le_of_not_lt hxlen)] at hrow
              exact Option.noConfusion hrow
          · have : p.x.toNat ≠ x.toNat := by omega
            rw [List.getElem?_set]
            simp [if_neg (by omega : ¬ x.toNat = p.x.toNat)]

theorem simulateMove_matches_resolveCombat_except_bomb_special (b : Board) (fromPos toPos : Position) (atk dfd : Piece)
    (hf : cellPiece b fromPos = some atk) (ht : cellPiece b toPos = some dfd)
    (hne : atk ≠ dfd)
    (hbm : ¬(atk.type = PieceType.Bomb ∧ (dfd.type = PieceType.Mine ∨ dfd.type = PieceType.Flag))) :
    (cellPiece (simulateMove b fromPos toPos) toPos = some atk ↔
      (resolveCombat atk dfd).attackerSurvives = true)
    ∧ (cellPiece (simulateMove b fromPos toPos) toPos = some dfd ↔
      (resolveCombat atk dfd).defenderSurvives = true)
    ∧ ((cellPiece (simulateMove b fromPos toPos) fromPos = none ∧
        cellPiece (simulateMove b fromPos toPos) toPos = none) ↔
      ((resolveCombat atk dfd).attackerSurvives = false ∧
        (resolveCombat atk dfd).defenderSurvives = false)) := by
  obtain ⟨src, hsrc, hsp⟩ : ∃ src, chk b fromPos = some src ∧ src.piece = some atk := by
    unfold cellPiece at hf
    cases h : chk b fromPos with
    | none => rw [h] at hf; exact absurd hf (by simp)
    | some s => rw [h] at hf; exact ⟨s, rfl, hf⟩
  obtain ⟨tgt, htgt, htp⟩ : ∃ tgt, chk b toPos = some tgt ∧ tgt.piece = some dfd := by
    unfold cellPiece at ht
    cases h : chk b toPos with
    | none => rw [h] at ht; exact absurd ht (by simp)
    | some s => rw [h] at ht; exact ⟨s, rfl, ht⟩
  have hpt : fromPos ≠ toPos := by
    intro h
    rw [h, htgt] at hsrc
    apply hne
    have hst : src = tgt := by
      injection hsrc with h2
      exact h2.symm
    rw [hst, htp] at hsp
    injection hsp with h3
    exact h3.symm
  have hpt' : toPos ≠ fromPos := fun h => hpt h.symm
  have hdne : dfd ≠ atk := fun h => hne h.symm
  have hself : ∀ v, chk (setCell b toPos.x toPos.y v) toPos = v := fun v =>
    chk_setCell_self b toPos.x toPos.y tgt v htgt
  have hselfF : ∀ v, chk (setCell b fromPos.x fromPos.y v) fromPos = v := fun v =>
    chk_setCell_self b fromPos.x fromPos.y src v hsrc
  have hotherF : ∀ v, chk (setCell b toPos.x toPos.y v) fromPos = chk b fromPos := fun v =>
    chk_setCell_other b toPos.x toPos.y v fromPos hpt
  have hotherT : ∀ v, chk (setCell b fromPos.x fromPos.y v) toPos = chk b toPos := fun v =>
    chk_setCell_other b fromPos.x fromPos.y v toPos hpt'
  simp only [simulateMove, hsrc, hsp, htgt, htp]
  by_cases hfm : dfd.type = PieceType.Flag ∨ dfd.type = PieceType.Mine
  · simp only [if_pos hfm]
    by_cases hem : atk.type = PieceType.Engineer ∧ dfd.type = PieceType.Mine
    · simp only [if_pos hem]
      have hr : (resolveCombat atk dfd).attackerSurvives = true ∧
          (resolveCombat atk dfd).defenderSurvives = false := by
        simp only [resolveCombat, hem.1, hem.2, PieceType.Engineer, PieceType.Mine,
          PieceType.Bomb]
        norm_num
      simp only [cellPiece, hself, hotherF, hsrc, hr.1, hr.2]
      simp [Option.bind, hsp, hne, hdne]
    · simp only [if_neg hem]
      by_cases hm : dfd.type = PieceType.Mine
      · simp only [if_pos hm]
        have hnb : ¬(atk.type = PieceType.Bomb) := fun h => hbm ⟨h, Or.inl hm⟩
        have hr : (resolveCombat atk dfd).attackerSurvives = false ∧
            (resolveCombat atk dfd).defenderSurvives = true := by
          have hne2 : ¬(atk.type = PieceType.Engineer ∧ dfd.type = PieceType.Mine) := hem
          have hnb2 : ¬(atk.type = PieceType.Bomb ∨ dfd.type = PieceType.Bomb) := by
            intro h
            rcases h with h | h
            · exact hnb h
            · rw [hm] at h; exact absurd h (by norm_num [PieceType.Mine, PieceType.Bomb])
          simp only [resolveCombat, if_neg hnb2, if_neg hne2, if_pos hm]
          exact ⟨trivial, trivial⟩
        simp only [cellPiece, hselfF, hotherT, htgt, hr.1, hr.2]
        simp [Option.bind, htp, hne, hdne]
      · simp only [if_neg hm]
        have hflag : dfd.type = PieceType.Flag := by
          rcases hfm with h | h
          · exact h
          · exact absurd h hm
        have hnb : ¬(atk.type = PieceType.Bomb) := fun h => hbm ⟨h, Or.inr hflag⟩
        have hr : (resolveCombat atk dfd).attackerSurvives = true ∧
            (resolveCombat atk dfd).defenderSurvives = false := by
          have hnb2 : ¬(atk.type = PieceType.Bomb ∨ dfd.type = PieceType.Bomb) := by
            intro h
            rcases h with h | h
            · exact hnb h
            · rw [hflag] at h; exact absurd h (by norm_num [PieceType.Flag, PieceType.Bomb])
          have hne2 : ¬(atk.type = PieceType.Engineer ∧ dfd.type = PieceType.Mine) := hem
          simp only [resolveCombat, if_neg hnb2, if_neg hne2, if_neg hm, if_pos hflag]
          exact ⟨trivial, trivial⟩
        simp only [cellPiece, hself, hotherF, hsrc, hr.1, hr.2]
        simp [Option.bind, hsp, hne, hdne]
  · simp only [if_neg hfm]
    push_neg at hfm
    by_cases hbb : dfd.type = PieceType.Bomb ∨ atk.type = PieceType.Bomb
    · simp only [if_pos hbb]
      have hr : (resolveCombat atk dfd).attackerSurvives = false ∧
          (resolveCombat atk dfd).defenderSurvives = false := by
        have : atk.type = PieceType.Bomb ∨ dfd.type = PieceType.Bomb := hbb.symm
        simp only [resolveCombat, if_pos this]
        exact ⟨trivial, trivial⟩
      have h1 : chk (setCell (setCell b fromPos.x fromPos.y (some { src with piece := none }))
          toPos.x toPos.y (some { tgt with piece := none })) toPos =
          some { tgt with piece := none } := by
        apply chk_setCell_self
        rw [hotherT]
        exact htgt
      have h2 : chk (setCell (setCell b fromPos.x fromPos.y (some { src with piece := none }))
          toPos.x toPos.y (some { tgt with piece := none })) fromPos =
          some { src with piece := none } := by
        rw [chk_setCell_other _ _ _ _ _ hpt, hselfF]
      simp only [cellPiece, h1, h2, hr.1, hr.2]
      simp [Option.bind]
    · simp only [if_neg hbb]
      push_neg at hbb
      by_cases hlt : dfd.type < atk.type
      · simp only [if_pos hlt]
        have hr : (resolveCombat atk dfd).attackerSurvives = true ∧
            (resolveCombat atk dfd).defenderSurvives = false := by
          have hnb2 : ¬(atk.type = PieceType.Bomb ∨ dfd.type = PieceType.Bomb) := by
            intro h; rcases h with h | h
            · exact hbb.2 h
            · exact hbb.1 h
          have hne2 : ¬(atk.type = PieceType.Engineer ∧ dfd.type = PieceType.Mine) :=
            fun h => hfm.2 h.2
          simp only [resolveCombat, if_neg hnb2, if_neg hne2, if_neg hfm.2, if_neg hfm.1,
            if_pos hlt]
          exact ⟨trivial, trivial⟩
        have h1 : chk (setCell (setCell b toPos.x toPos.y (some { tgt with piece := some atk }))
            fromPos.x fromPos.y (some { src with piece := none })) toPos =
            some { tgt with piece := some atk } := by
          rw [chk_setCell_other _ _ _ _ _ hpt', hself]
        have h2 : chk (setCell (setCell b toPos.x toPos.y (some { tgt with piece := some atk }))
            fromPos.x fromPos.y (some { src with piece := none })) fromPos =
            some { src with piece := none } := by
          apply chk_setCell_self
          rw [hotherF]
          exact hsrc
        simp only [cellPiece, h1, h2, hr.1, hr.2]
        simp [Option.bind, hne, hdne]
      · simp only [if_neg hlt]
        by_cases hgt : atk.type < dfd.type
        · simp only [if_pos hgt]
          have hr : (resolveCombat atk dfd).attackerSurvives = false ∧
              (resolveCombat atk dfd).defenderSurvives = true := by
            have hnb2 : ¬(atk.type = PieceType.Bomb ∨ dfd.type = PieceType.Bomb) := by
              intro h; rcases h with h | h
              · exact hbb.2 h
              · exact hbb.1 h
            have hne2 : ¬(atk.type = PieceType.Engineer ∧ dfd.type = PieceType.Mine) :=
              fun h => hfm.2 h.2
            simp only [resolveCombat, if_neg hnb2, if_neg hne2, if_neg hfm.2, if_neg hfm.1,
              if_neg hlt, if_pos hgt]
            exact ⟨trivial, trivial⟩
          simp only [cellPiece, hselfF, hotherT, htgt, hr.1, hr.2]
          simp [Option.bind, htp, hne, hdne]
        · simp only [if_neg hgt]
          have heq : atk.type = dfd.type := by omega
          have hr : (resolveCombat atk dfd).attackerSurvives = false ∧
              (resolveCombat atk dfd).defenderSurvives = false := by
            have hnb2 : ¬(atk.type = PieceType.Bomb ∨ dfd.type = PieceType.Bomb) := by
              intro h; rcases h with h | h
              · exact hbb.2 h
              · exact hbb.1 h
            have hne2 : ¬(atk.type = PieceType.Engineer ∧ dfd.type = PieceType.Mine) :=
              fun h => hfm.2 h.2
            simp only [resolveCombat, if_neg hnb2, if_neg hne2, if_neg hfm.2, if_neg hfm.1,
              if_neg hlt, if_neg hgt]
            exact ⟨trivial, trivial⟩
          have h1 : chk (setCell (setCell b fromPos.x fromPos.y (some { src with piece := none }))
              toPos.x toPos.y (some { tgt with piece := none })) toPos =
              some { tgt with piece := none } := by
            apply chk_setCell_self
            rw [hotherT]
            exact htgt
          have h2 : chk (setCell (setCell b fromPos.x fromPos.y (some { src with piece := none }))
              toPos.x toPos.y (some { tgt with piece := none })) fromPos =
              some { src with piece := none } := by
            rw [chk_setCell_other _ _ _ _ _ hpt, hselfF]
          simp only [cellPiece, h1, h2, hr.1, hr.2]
          simp [Option.bind]

/-! ## Claims C1, C10: combat resolution -/

/-- C1: resolveCombat returns the outcome of the spec's ordered case
analysis (Bomb on either side, Engineer vs Mine, Mine, Flag capture,
strictly-higher-rank comparison), and isCommanderDeath holds exactly
when a Commander (rank 40) is among the non-survivors. -/
theorem resolveCombat_follows_spec_case_analysis (attacker defender : Piece) :
    (if attacker.type = PieceType.Bomb ∨ defender.type = PieceType.Bomb then
        (resolveCombat attacker defender).attackerSurvives = false ∧
          (resolveCombat attacker defender).defenderSurvives = false
      else if attacker.type = PieceType.Engineer ∧ defender.type = PieceType.Mine then
        (resolveCombat attacker defender).attackerSurvives = true ∧
          (resolveCombat attacker defender).defenderSurvives = false
      else if defender.type = PieceType.Mine then
        (resolveCombat attacker defender).attackerSurvives = false ∧
          (resolveCombat attacker defender).defenderSurvives = true
      else if defender.type = PieceType.Flag then
        (resolveCombat attacker defender).attackerSurvives = true ∧
          (resolveCombat attacker defender).defenderSurvives = false ∧
          (resolveCombat attacker defender).details.isFlagCapture = true
      else if defender.type < attacker.type then
        (resolveCombat attacker defender).attackerSurvives = true ∧
          (resolveCombat attacker defender).defenderSurvives = false
      else if attacker.type < defender.type then
        (resolveCombat attacker defender).attackerSurvives = false ∧
          (resolveCombat attacker defender).defenderSurvives = true
      else
        (resolveCombat attacker defender).attackerSurvives = false ∧
          (resolveCombat attacker defender).defenderSurvives = false)
    ∧ ((resolveCombat attacker defender).details.isCommanderDeath = true ↔
        (((resolveCombat attacker defender).attackerSurvives = false ∧
            attacker.type = PieceType.Commander) ∨
          ((resolveCombat attacker defender).defenderSurvives = false ∧
            defender.type = PieceType.Commander))) := by
  unfold resolveCombat
  simp only [PieceType.Commander, PieceType.Engineer, PieceType.Bomb, PieceType.Mine,
    PieceType.Flag]
  split_ifs <;> simp_all <;> omega

/-- C10: the two survival flags are never both set, the winner field is
null exactly when neither side survives, and otherwise it names the
unique survivor. -/
theorem resolveCombat_winner_unique (attacker defender : Piece) :
    ((resolveCombat attacker defender).attackerSurvives &&
        (resolveCombat attacker defender).defenderSurvives) = false
    ∧ ((resolveCombat attacker defender).details.winner = none ↔
        ((resolveCombat attacker defender).attackerSurvives = false ∧
          (resolveCombat attacker defender).defenderSurvives = false))
    ∧ ((resolveCombat attacker defender).attackerSurvives = true →
        (resolveCombat attacker defender).details.winner = some attacker)
    ∧ ((resolveCombat attacker defender).defenderSurvives = true →
        (resolveCombat attacker defender).details.winner = some defender) := by
  unfold resolveCombat
  split_ifs <;> simp_all

/-- Witness for C10 at a concrete battle: a Company dies on a Mine and
the Mine is reported as the winner. -/
theorem resolveCombat_winner_unique_witness :
    (resolveCombat companyP0 mineP1).defenderSurvives = true ∧
      (resolveCombat companyP0 mineP1).details.winner = some mineP1 :=
  ⟨by decide, (resolveCombat_winner_unique companyP0 mineP1).2.2.2 (by decide)⟩

/-! ## Claim C2: search simulation versus combat resolution -/

/-- C2 counterexample: when a Bomb attacks a Mine, resolveCombat kills
both, but simulateMove checks the Mine case first and leaves the Mine
standing on the destination - the two resolutions are not referentially
identical. -/
theorem simulateMove_bomb_vs_mine_diverges :
    cellPiece boardBombMine ⟨11, 6⟩ = some bombP0 ∧
      cellPiece boardBombMine ⟨10, 6⟩ = some mineP1 ∧
      (resolveCombat bombP0 mineP1).defenderSurvives = false ∧
      cellPiece (simulateMove boardBombMine ⟨11, 6⟩ ⟨10, 6⟩) ⟨10, 6⟩ = some mineP1 :=
  ⟨by decide, by decide, by decide, by decide⟩

/-- Witness for the amended C2 at a concrete non-Bomb attack: a Company
attacks the Mine at (10,6). -/
theorem simulateMove_matches_witness :
    cellPiece boardCompanyMine ⟨11, 6⟩ = some companyP0 ∧
      cellPiece boardCompanyMine ⟨10, 6⟩ = some mineP1 ∧
      companyP0 ≠ mineP1 ∧
      ¬(companyP0.type = PieceType.Bomb ∧
          (mineP1.type = PieceType.Mine ∨ mineP1.type = PieceType.Flag)) ∧
      ((cellPiece (simulateMove boardCompanyMine ⟨11, 6⟩ ⟨10, 6⟩) ⟨10, 6⟩ = some companyP0 ↔
          (resolveCombat companyP0 mineP1).attackerSurvives = true)
        ∧ (cellPiece (simulateMove boardCompanyMine ⟨11, 6⟩ ⟨10, 6⟩) ⟨10, 6⟩ = some mineP1 ↔
          (resolveCombat companyP0 mineP1).defenderSurvives = true)
        ∧ ((cellPiece (simulateMove boardCompanyMine ⟨11, 6⟩ ⟨10, 6⟩) ⟨11, 6⟩ = none ∧
            cellPiece (simulateMove boardCompanyMine ⟨11, 6⟩ ⟨10, 6⟩) ⟨10, 6⟩ = none) ↔
          ((resolveCombat companyP0 mineP1).attackerSurvives = false ∧
            (resolveCombat companyP0 mineP1).defenderSurvives = false))) :=
  ⟨by decide, by decide, by decide, by decide,
    simulateMove_matches_resolveCombat_except_bomb_special boardCompanyMine ⟨11, 6⟩ ⟨10, 6⟩
      companyP0 mineP1 (by decide) (by decide) (by decide) (by decide)⟩

/-! ## Claims C3, C4: the AI piece-memory model -/

theorem getMem_updMem_same (m : Mem) (i : Nat) (f : PieceMemory → PieceMemory)
    (hf : ∀ r, (f r).pieceId = r.pieceId) :
    getMem (updMem m i f) i = (getMem m i).map f := by
  induction m with
  | nil => rfl
  | cons r rest ih =>
      unfold getMem updMem at *
      by_cases h1 : r.pieceId = i
      · simp [h1, List.find?, hf]
      · simp only [List.map_cons, if_neg h1]
        rw [List.find?_cons_of_neg, List.find?_cons_of_neg]
        · exact ih
        · simp [h1]
        · simp [h1]

theorem getMem_updMem_other (m : Mem) (i : Nat) (f : PieceMemory → PieceMemory)
    (hf : ∀ r, (f r).pieceId = r.pieceId) (id : Nat) (hne : i ≠ id) :
    getMem (updMem m i f) id = getMem m id := by
  induction m with
  | nil => rfl
  | cons r rest ih =>
      unfold getMem updMem at *
      by_cases h1 : r.pieceId = i
      · simp only [List.map_cons, if_pos h1]
        rw [List.find?_cons_of_neg, List.find?_cons_of_neg]
        · exact ih
        · simp [h1, hne]
        · simp [hf, h1, hne]
      · simp only [List.map_cons, if_neg h1]
        by_cases h2 : r.pieceId = id
        · rw [List.find?_cons_of_pos, List.find?_cons_of_pos] <;> simp [h2]
        · rw [List.find?_cons_of_neg, List.find?_cons_of_neg]
          · exact ih
          · simp [h2]
          · simp [h2]

theorem MemNarrow.refl (pm : PieceMemory) : MemNarrow pm pm :=
  ⟨rfl, rfl, subset_rfl⟩

theorem MemNarrow.trans {a b c : PieceMemory} (h1 : MemNarrow a b) (h2 : MemNarrow b c) :
    MemNarrow a c :=
  ⟨h2.1.trans h1.1, h2.2.1.trans h1.2.1, h2.2.2.trans h1.2.2⟩

theorem updMem_updMem (m : Mem) (i : Nat) (f g h : PieceMemory → PieceMemory)
    (hf : ∀ r, (f r).pieceId = r.pieceId) (hgf : ∀ r, g (f r) = h r) :
    updMem (updMem m i f) i g = updMem m i h := by
  unfold updMem
  rw [List.map_map]
  apply List.map_congr_left
  intro r _
  by_cases hr : r.pieceId = i
  · simp [hr, hf, hgf]
  · simp [hr]

theorem getMem_updMem_narrow (m : Mem) (i : Nat) (f : PieceMemory → PieceMemory)
    (hf : ∀ r, (f r).pieceId = r.pieceId)
    (hmin : ∀ r, (f r).minRank = r.minRank) (hmax : ∀ r, (f r).maxRank = r.maxRank)
    (hpt : ∀ r, (f r).possibleTypes ⊆ r.possibleTypes) (id : Nat) (pm : PieceMemory)
    (h : getMem m id = some pm) :
    ∃ pm', getMem (updMem m i f) id = some pm' ∧ MemNarrow pm pm' := by
  by_cases hi : i = id
  · subst hi
    rw [getMem_updMem_same m i f hf, h]
    exact ⟨f pm, rfl, hmin pm, hmax pm, hpt pm⟩
  · rw [getMem_updMem_other m i f hf id hi, h]
    exact ⟨pm, rfl, MemNarrow.refl pm⟩

theorem pt_erase2 (s : Finset Nat) :
    (s.erase PieceType.Mine).erase PieceType.Flag ⊆ s :=
  (Finset.erase_subset _ _).trans (Finset.erase_subset _ _)

theorem winnerIs_both {result : BattleResult} {i j : Nat}
    (hi : winnerIs result i = true) (hj : winnerIs result j = true) : i = j := by
  unfold winnerIs at hi hj
  cases hw : result.winner with
  | none => rw [hw] at hi; exact absurd hi (by simp)
  | some w =>
      rw [hw] at hi hj
      simp only [decide_eq_true_eq] at hi hj
      omega

theorem processBattle_narrows (m : Mem) (attacker defender : Piece) (result : BattleResult)
    (id : Nat) (pm : PieceMemory) (h : getMem m id = some pm) :
    ∃ pm', getMem (processBattle m attacker defender result) id = some pm' ∧
      MemNarrow pm pm' := by
  have hprobe := fun (m0 : Mem) (pm0 : PieceMemory) (h0 : getMem m0 id = some pm0) =>
    getMem_updMem_narrow m0 defender.id
      (fun r => { r with probeCount := r.probeCount + 1 }) (fun r => rfl) (fun r => rfl)
      (fun r => rfl) (fun r => subset_rfl) id pm0 h0
  have hdefRank := fun (m0 : Mem) (pm0 : PieceMemory) (h0 : getMem m0 id = some pm0) =>
    getMem_updMem_narrow m0 defender.id
      (fun r => { r with defeatedOurRank := max r.defeatedOurRank attacker.type })
      (fun r => rfl) (fun r => rfl) (fun r => rfl) (fun r => subset_rfl) id pm0 h0
  have hattRank := fun (m0 : Mem) (pm0 : PieceMemory) (h0 : getMem m0 id = some pm0) =>
    getMem_updMem_narrow m0 attacker.id
      (fun r => { r with defeatedOurRank := max r.defeatedOurRank defender.type })
      (fun r => rfl) (fun r => rfl) (fun r => rfl) (fun r => subset_rfl) id pm0 h0
  have hdefRank2 := fun (m0 : Mem) (pm0 : PieceMemory) (h0 : getMem m0 id = some pm0) =>
    getMem_updMem_narrow m0 defender.id
      (fun r => { r with defeatedOurRank := max r.defeatedOurRank defender.type })
      (fun r => rfl) (fun r => rfl) (fun r => rfl) (fun r => subset_rfl) id pm0 h0
  have hfuse := fun (m0 : Mem) (pm0 : PieceMemory) (h0 : getMem m0 id = some pm0) =>
    getMem_updMem_narrow m0 defender.id collapseThenWin
      (fun r => by
        unfold collapseThenWin updateWinnerFields
        by_cases hb : r.isInBackRows = true <;> simp [hb])
      (fun r => by
        unfold collapseThenWin updateWinnerFields
        by_cases hb : r.isInBackRows = true <;> simp [hb])
      (fun r => by
        unfold collapseThenWin updateWinnerFields
        by_cases hb : r.isInBackRows = true <;> simp [hb])
      (fun r => by
        unfold collapseThenWin updateWinnerFields
        by_cases hb : r.isInBackRows = true
        · rw [if_pos hb]
          intro a ha
          have hempty :
              (({PieceType.Mine} : Finset Nat).erase PieceType.Mine).erase PieceType.Flag =
                (∅ : Finset Nat) := by decide
          rw [hempty] at ha
          exact absurd ha (Finset.not_mem_empty a)
        · rw [if_neg hb]
          exact pt_erase2 _) id pm0 h0
  unfold processBattle
  cases hA : getMem m attacker.id with
  | none => simp only [hA]; exact ⟨pm, h, MemNarrow.refl pm⟩
  | some attM =>
    cases hD : getMem m defender.id with
    | none => simp only [hA, hD]; exact ⟨pm, h, MemNarrow.refl pm⟩
    | some defM =>
      simp only [hA, hD]
      by_cases heng : attacker.type = PieceType.Engineer
      · -- Engineer attacker: the confirmed-Mine detection is off.
        simp only [if_pos heng, if_neg (fun hc => hc.2 heng :
          ¬(winnerIs result defender.id = true ∧ ¬attacker.type = PieceType.Engineer))]
        obtain ⟨pm1, h1, n1⟩ := getMem_updMem_narrow m defender.id
          (fun r => { r with wasProbed := true }) (fun r => rfl) (fun r => rfl) (fun r => rfl)
          (fun r => subset_rfl) id pm h
        obtain ⟨pm2, h2, n2⟩ := hprobe _ pm1 h1
        by_cases hWA : winnerIs result attacker.id = true
        · simp only [if_pos hWA]
          obtain ⟨pm3, h3, n3⟩ := getMem_updMem_narrow _ attacker.id updateWinnerFields
            (fun r => rfl) (fun r => rfl) (fun r => rfl) (fun r => pt_erase2 _) id pm2 h2
          by_cases hOwn : defM.owner = attM.owner
          · simp only [if_neg (not_not_intro hOwn)]
            exact ⟨pm3, h3, (n1.trans n2).trans n3⟩
          · simp only [if_pos hOwn]
            obtain ⟨pm4, h4, n4⟩ := hattRank _ pm3 h3
            exact ⟨pm4, h4, ((n1.trans n2).trans n3).trans n4⟩
        · simp only [if_neg hWA]
          by_cases hWD : winnerIs result defender.id = true
          · simp only [if_pos hWD]
            obtain ⟨pm3, h3, n3⟩ := getMem_updMem_narrow _ defender.id updateWinnerFields
              (fun r => rfl) (fun r => rfl) (fun r => rfl) (fun r => pt_erase2 _) id pm2 h2
            by_cases hOwn : defM.owner = attM.owner
            · simp only [if_neg (not_not_intro hOwn)]
              exact ⟨pm3, h3, (n1.trans n2).trans n3⟩
            · simp only [if_pos hOwn]
              obtain ⟨pm4, h4, n4⟩ := hdefRank _ pm3 h3
              exact ⟨pm4, h4, ((n1.trans n2).trans n3).trans n4⟩
          · simp only [if_neg hWD]
            by_cases hOwn : defM.owner = attM.owner
            · simp only [if_neg (not_not_intro hOwn)]
              exact ⟨pm2, h2, n1.trans n2⟩
            · simp only [if_pos hOwn]
              obtain ⟨pm3, h3, n3⟩ := hdefRank _ pm2 h2
              obtain ⟨pm4, h4, n4⟩ := hattRank _ pm3 h3
              exact ⟨pm4, h4, ((n1.trans n2).trans n3).trans n4⟩
      · -- Non-Engineer attacker: the detection may fire.
        simp only [if_neg heng]
        obtain ⟨pm2, h2, n2⟩ := hprobe m pm h
        by_cases hWD : winnerIs result defender.id = true
        · -- Detection fires; the winner update immediately erases Mine again.
          simp only [if_pos (⟨hWD, heng⟩ :
            winnerIs result defender.id = true ∧ ¬attacker.type = PieceType.Engineer)]
          by_cases hWA : winnerIs result attacker.id = true
          · -- Winner matches both ids, so attacker.id = defender.id.
            have hidEq : attacker.id = defender.id := winnerIs_both hWA hWD
            simp only [if_pos hWA]
            rw [hidEq]
            rw [updMem_updMem _ defender.id _ updateWinnerFields collapseThenWin
              (fun r => by by_cases hb : r.isInBackRows = true <;> simp [hb])
              (fun r => rfl)]
            obtain ⟨pm3, h3, n3⟩ := hfuse _ pm2 h2
            by_cases hOwn : defM.owner = attM.owner
            · simp only [if_neg (not_not_intro hOwn)]
              exact ⟨pm3, h3, n2.trans n3⟩
            · simp only [if_pos hOwn]
              obtain ⟨pm4, h4, n4⟩ := hdefRank2 _ pm3 h3
              exact ⟨pm4, h4, (n2.trans n3).trans n4⟩
          · simp only [if_neg hWA, if_pos hWD]
            rw [updMem_updMem _ defender.id _ updateWinnerFields collapseThenWin
              (fun r => by by_cases hb : r.isInBackRows = true <;> simp [hb])
              (fun r => rfl)]
            obtain ⟨pm3, h3, n3⟩ := hfuse _ pm2 h2
            by_cases hOwn : defM.owner = attM.owner
            · simp only [if_neg (not_not_intro hOwn)]
              exact ⟨pm3, h3, n2.trans n3⟩
            · simp only [if_pos hOwn]
              obtain ⟨pm4, h4, n4⟩ := hdefRank _ pm3 h3
              exact ⟨pm4, h4, (n2.trans n3).trans n4⟩
        · simp only [if_neg (fun hc => hWD hc.1 :
            ¬(winnerIs result defender.id = true ∧ ¬attacker.type = PieceType.Engineer))]
          by_cases hWA : winnerIs result attacker.id = true
          · simp only [if_pos hWA]
            obtain ⟨pm3, h3, n3⟩ := getMem_updMem_narrow _ attacker.id updateWinnerFields
              (fun r => rfl) (fun r => rfl) (fun r => rfl) (fun r => pt_erase2 _) id pm2 h2
            by_cases hOwn : defM.owner = attM.owner
            · simp only [if_neg (not_not_intro hOwn)]
              exact ⟨pm3, h3, n2.trans n3⟩
            · simp only [if_pos hOwn]
              obtain ⟨pm4, h4, n4⟩ := hattRank _ pm3 h3
              exact ⟨pm4, h4, (n2.trans n3).trans n4⟩
          · simp only [if_neg hWA, if_neg hWD]
            by_cases hOwn : defM.owner = attM.owner
            · simp only [if_neg (not_not_intro hOwn)]
              exact ⟨pm2, h2, n2⟩
            · simp only [if_pos hOwn]
              obtain ⟨pm3, h3, n3⟩ := hdefRank _ pm2 h2
              obtain ⟨pm4, h4, n4⟩ := hattRank _ pm3 h3
              exact ⟨pm4, h4, (n2.trans n3).trans n4⟩

theorem foldl_narrows {β : Type} (l : List β) (step : Mem → β → Mem)
    (hstep : ∀ m x id pm, getMem m id = some pm →
      ∃ pm', getMem (step m x) id = some pm' ∧ MemNarrow pm pm') :
    ∀ m id pm, getMem m id = some pm →
      ∃ pm', getMem (l.foldl step m) id = some pm' ∧ MemNarrow pm pm' := by
  induction l with
  | nil => intro m id pm h; exact ⟨pm, h, MemNarrow.refl pm⟩
  | cons x xs ih =>
      intro m id pm h
      obtain ⟨pm1, h1, n1⟩ := hstep m x id pm h
      obtain ⟨pm2, h2, n2⟩ := ih (step m x) id pm1 h1
      exact ⟨pm2, h2, n1.trans n2⟩

theorem markPieceMoved_narrows (m : Mem) (pid : Nat) (id : Nat) (pm : PieceMemory)
    (h : getMem m id = some pm) :
    ∃ pm', getMem (markPieceMoved m pid) id = some pm' ∧ MemNarrow pm pm' := by
  unfold markPieceMoved
  refine getMem_updMem_narrow m pid _ ?_ ?_ ?_ ?_ id pm h
  · intro r; rfl
  · intro r; rfl
  · intro r; rfl
  · intro r; exact pt_erase2 _

theorem markBackRowPieces_narrows (m : Mem) (b : Board) (playerId : Nat) (id : Nat)
    (pm : PieceMemory) (h : getMem m id = some pm) :
    ∃ pm', getMem (markBackRowPieces m b playerId) id = some pm' ∧ MemNarrow pm pm' := by
  unfold markBackRowPieces
  refine foldl_narrows _ _ ?_ m id pm h
  intro m0 x id0 pm0 h0
  refine getMem_updMem_narrow m0 x.2.id _ ?_ ?_ ?_ ?_ id0 pm0 h0
  · intro r; rfl
  · intro r; rfl
  · intro r; rfl
  · intro r; exact subset_rfl

theorem applyOp_narrows (op : MemOp) (hop : op.isSync = false) (m : Mem) (id : Nat)
    (pm : PieceMemory) (h : getMem m id = some pm) :
    ∃ pm', getMem (applyOp m op) id = some pm' ∧ MemNarrow pm pm' := by
  cases op with
  | moved i => exact markPieceMoved_narrows m i id pm h
  | backRows b pid => exact markBackRowPieces_narrows m b pid id pm h
  | battle a d res => exact processBattle_narrows m a d res id pm h
  | syncOp b => exact absurd hop (by simp [MemOp.isSync])

/-- C3 (amended): over every sequence of markPieceMoved,
markBackRowPieces and processBattle operations, each piece's record
only narrows - minRank and maxRank are unchanged and possibleTypes
never regains an element.  The sync operation is excluded: it
overwrites the record with the revealed type, which widens the interval
for a revealed Bomb (99), Mine (88) or Flag (0). -/
theorem memory_narrowing_without_sync (ops : List MemOp)
    (hops : ∀ op ∈ ops, op.isSync = false) :
    ∀ (m : Mem) (id : Nat) (pm : PieceMemory), getMem m id = some pm →
      ∃ pm', getMem (applyOps m ops) id = some pm' ∧
        pm'.minRank = pm.minRank ∧ pm'.maxRank = pm.maxRank ∧
        pm'.possibleTypes ⊆ pm.possibleTypes := by
  induction ops with
  | nil => intro m id pm h; exact ⟨pm, h, MemNarrow.refl pm⟩
  | cons op rest ih =>
      intro m id pm h
      obtain ⟨pm1, h1, n1⟩ := applyOp_narrows op (hops op (by simp)) m id pm h
      obtain ⟨pm2, h2, n2⟩ :=
        ih (fun o ho => hops o (by simp [ho])) (applyOp m op) id pm1 h1
      exact ⟨pm2, h2, MemNarrow.trans n1 n2⟩

/-- C4 (amended): processBattle marks a defender confirmed-Mine
(isConfirmedMine set, confirmedType = Mine) exactly when the battle
winner is the defender, the attacker is not an Engineer, and the
defender's memory records it as being in the back two rows - whether or
not it has ever moved; and when that happens the momentary
possibleTypes collapse to the Mine singleton is immediately re-erased
by the winner update, leaving possibleTypes empty, not the Mine
singleton. -/
theorem processBattle_confirmed_mine_condition (m : Mem) (attacker defender : Piece)
    (result : BattleResult) (attM defM : PieceMemory)
    (ha : getMem m attacker.id = some attM) (hd : getMem m defender.id = some defM)
    (hid : attacker.id ≠ defender.id) :
    ∃ defM', getMem (processBattle m attacker defender result) defender.id = some defM' ∧
      defM'.isConfirmedMine =
        (defM.isConfirmedMine ||
          (winnerIs result defender.id && !decide (attacker.type = PieceType.Engineer) &&
            defM.isInBackRows)) ∧
      ((winnerIs result defender.id = true ∧ ¬attacker.type = PieceType.Engineer ∧
          defM.isInBackRows = true) →
        defM'.confirmedType = some PieceType.Mine ∧ defM'.possibleTypes = ∅) := by
  have hsameWasP := fun (m0 : Mem) =>
    getMem_updMem_same m0 defender.id (fun r => { r with wasProbed := true }) fun r => rfl
  have hsameProbe := fun (m0 : Mem) =>
    getMem_updMem_same m0 defender.id
      (fun r => { r with probeCount := r.probeCount + 1 }) fun r => rfl
  have hsameDet := fun (m0 : Mem) =>
    getMem_updMem_same m0 defender.id
      (fun r =>
        if r.isInBackRows then
          { r with isConfirmedMine := true, isConfirmed := true,
                   confirmedType := some PieceType.Mine,
                   possibleTypes := {PieceType.Mine} }
        else r)
      fun r => by by_cases hb : r.isInBackRows = true <;> simp [hb]
  have hsameWin := fun (m0 : Mem) =>
    getMem_updMem_same m0 defender.id updateWinnerFields fun r => rfl
  have hsameDefR := fun (m0 : Mem) =>
    getMem_updMem_same m0 defender.id
      (fun r => { r with defeatedOurRank := max r.defeatedOurRank attacker.type }) fun r => rfl
  have hOtherWin := fun (m0 : Mem) =>
    getMem_updMem_other m0 attacker.id updateWinnerFields (fun r => rfl) defender.id hid
  have hOtherAttR := fun (m0 : Mem) =>
    getMem_updMem_other m0 attacker.id
      (fun r => { r with defeatedOurRank := max r.defeatedOurRank defender.type })
      (fun r => rfl) defender.id hid
  unfold processBattle
  rw [ha, hd]
  by_cases heng : attacker.type = PieceType.Engineer
  · -- Engineer attacker: detection off, isConfirmedMine untouched.
    simp only [if_pos heng, if_neg (fun hc => hc.2 heng :
      ¬(winnerIs result defender.id = true ∧ ¬attacker.type = PieceType.Engineer))]
    by_cases hWA : winnerIs result attacker.id = true
    · simp only [if_pos hWA]
      by_cases hOwn : defM.owner = attM.owner
      · simp only [if_neg (not_not_intro hOwn)]
        rw [hOtherWin, hsameProbe, hsameWasP, hd]
        refine ⟨_, rfl, by simp [heng], ?_⟩
        rintro ⟨-, hc, -⟩
        exact absurd heng hc
      · simp only [if_pos hOwn]
        rw [hOtherAttR, hOtherWin, hsameProbe, hsameWasP, hd]
        refine ⟨_, rfl, by simp [heng], ?_⟩
        rintro ⟨-, hc, -⟩
        exact absurd heng hc
    · simp only [if_neg hWA]
      by_cases hWD : winnerIs result defender.id = true
      · simp only [if_pos hWD]
        by_cases hOwn : defM.owner = attM.owner
        · simp only [if_neg (not_not_intro hOwn)]
          rw [hsameWin, hsameProbe, hsameWasP, hd]
          refine ⟨_, rfl, by simp [heng, updateWinnerFields], ?_⟩
          rintro ⟨-, hc, -⟩
          exact absurd heng hc
        · simp only [if_pos hOwn]
          rw [hsameDefR, hsameWin, hsameProbe, hsameWasP, hd]
          refine ⟨_, rfl, by simp [heng, updateWinnerFields], ?_⟩
          rintro ⟨-, hc, -⟩
          exact absurd heng hc
      · simp only [if_neg hWD]
        by_cases hOwn : defM.owner = attM.owner
        · simp only [if_neg (not_not_intro hOwn)]
          rw [hsameProbe, hsameWasP, hd]
          refine ⟨_, rfl, by simp [heng], ?_⟩
          rintro ⟨-, hc, -⟩
          exact absurd heng hc
        · simp only [if_pos hOwn]
          rw [hOtherAttR, hsameDefR, hsameProbe, hsameWasP, hd]
          refine ⟨_, rfl, by simp [heng], ?_⟩
          rintro ⟨-, hc, -⟩
          exact absurd heng hc
  · -- Non-Engineer attacker.
    simp only [if_neg heng]
    by_cases hWD : winnerIs result defender.id = true
    · -- Defender won: detection branch runs, then the winner update.
      have hWA : winnerIs result attacker.id = false := by
        by_contra hc
        exact hid (winnerIs_both (by revert hc; cases winnerIs result attacker.id <;> simp) hWD)
      have hWA2 : ¬winnerIs result attacker.id = true := by
        rw [hWA]
        exact Bool.false_ne_true
      simp only [if_pos (⟨hWD, heng⟩ :
        winnerIs result defender.id = true ∧ ¬attacker.type = PieceType.Engineer),
        if_neg hWA2, if_pos hWD]
      by_cases hOwn : defM.owner = attM.owner
      · simp only [if_neg (not_not_intro hOwn)]
        rw [hsameWin, hsameDet, hsameProbe, hd]
        by_cases hback : defM.isInBackRows = true
        · refine ⟨_, rfl, ?_, ?_⟩
          · simp [hback, hWD, heng, updateWinnerFields]
          · intro
            simp only [Option.map_some, hback, if_true, updateWinnerFields]
            constructor
            · trivial
            · decide
        · refine ⟨_, rfl, ?_, ?_⟩
          · simp [hback, hWD, heng, updateWinnerFields]
          · rintro ⟨-, -, hc⟩
            exact absurd hc hback
      · simp only [if_pos hOwn]
        rw [hsameDefR, hsameWin, hsameDet, hsameProbe, hd]
        by_cases hback : defM.isInBackRows = true
        · refine ⟨_, rfl, ?_, ?_⟩
          · simp [hback, hWD, heng, updateWinnerFields]
          · intro
            simp only [Option.map_some, hback, if_true, updateWinnerFields]
            constructor
            · trivial
            · decide
        · refine ⟨_, rfl, ?_, ?_⟩
          · simp [hback, hWD, heng, updateWinnerFields]
          · rintro ⟨-, -, hc⟩
            exact absurd hc hback
    · -- Defender did not win: detection off.
      simp only [if_neg (fun hc => hWD hc.1 :
        ¬(winnerIs result defender.id = true ∧ ¬attacker.type = PieceType.Engineer))]
      by_cases hWA : winnerIs result attacker.id = true
      · simp only [if_pos hWA]
        by_cases hOwn : defM.owner = attM.owner
        · simp only [if_neg (not_not_intro hOwn)]
          rw [hOtherWin, hsameProbe, hd]
          refine ⟨_, rfl, by simp [hWD], ?_⟩
          rintro ⟨hc, -, -⟩
          exact absurd hc hWD
        · simp only [if_pos hOwn]
          rw [hOtherAttR, hOtherWin, hsameProbe, hd]
          refine ⟨_, rfl, by simp [hWD], ?_⟩
          rintro ⟨hc, -, -⟩
          exact absurd hc hWD
      · simp only [if_neg hWA, if_neg hWD]
        by_cases hOwn : defM.owner = attM.owner
        · simp only [if_neg (not_not_intro hOwn)]
          rw [hsameProbe, hd]
          refine ⟨_, rfl, by simp [hWD], ?_⟩
          rintro ⟨hc, -, -⟩
          exact absurd hc hWD
        · simp only [if_pos hOwn]
          rw [hOtherAttR, hsameDefR, hsameProbe, hd]
          refine ⟨_, rfl, by simp [hWD], ?_⟩
          rintro ⟨hc, -, -⟩
          exact absurd hc hWD

set_option maxRecDepth 10000

/-- C3 counterexample: sync on a revealed Bomb raises maxRank from 40
to 99, so the memory interval does not only narrow over a sequence that
includes sync. -/
theorem memory_sync_widens_maxRank :
    (getMem (memReset [revealedBombP1]) 6).map (fun r => r.maxRank) = some 40 ∧
      (getMem (applyOps (memReset [revealedBombP1]) [MemOp.syncOp boardRevealedBomb]) 6).map
        (fun r => r.maxRank) = some 99 :=
  ⟨by decide, by decide⟩

/-- Witness for the amended C3 on a concrete three-operation
sequence. -/
theorem memory_narrowing_witness :
    (∀ op ∈ ([MemOp.moved 2, MemOp.backRows boardBackRowPlatoon 1,
          MemOp.battle companyP0 platoonP1 defenderWinsResult] : List MemOp),
        op.isSync = false) ∧
      getMem (memReset [companyP0, platoonP1]) 7 = some (resetRecord platoonP1) ∧
      (∃ pm', getMem (applyOps (memReset [companyP0, platoonP1])
            [MemOp.moved 2, MemOp.backRows boardBackRowPlatoon 1,
             MemOp.battle companyP0 platoonP1 defenderWinsResult]) 7 = some pm' ∧
          pm'.minRank = (resetRecord platoonP1).minRank ∧
          pm'.maxRank = (resetRecord platoonP1).maxRank ∧
          pm'.possibleTypes ⊆ (resetRecord platoonP1).possibleTypes) :=
  ⟨by decide, by decide,
    memory_narrowing_without_sync _ (by decide) _ 7 _ (by decide)⟩

/-- C4 counterexample: a defender that has moved (hasMoved, Mine and
Flag already erased from its set) but stands in the back rows is still
marked confirmed-Mine, and its possibleTypes ends empty (card 0), not
the Mine singleton the claim states. -/
theorem processBattle_mine_collapse_counterexample :
    (getMem (processBattle
        (applyOps (memReset [companyP0, platoonP1])
          [MemOp.moved 7, MemOp.backRows boardBackRowPlatoon 1])
        companyP0 platoonP1 defenderWinsResult) 7).map
      (fun r => (r.hasMoved, r.isConfirmedMine, r.confirmedType, r.possibleTypes.card)) =
      some (true, true, some PieceType.Mine, 0) := by
  decide

/-- Witness for the amended C4 at a concrete back-row battle. -/
theorem processBattle_confirmed_mine_witness :
    getMem (memReset [companyP0, platoonP1]) 2 = some (resetRecord companyP0) ∧
      getMem (memReset [companyP0, platoonP1]) 7 = some (resetRecord platoonP1) ∧
      companyP0.id ≠ platoonP1.id ∧
      (∃ defM', getMem (processBattle (memReset [companyP0, platoonP1]) companyP0 platoonP1
            defenderWinsResult) platoonP1.id = some defM' ∧
          defM'.isConfirmedMine =
            ((resetRecord platoonP1).isConfirmedMine ||
              (winnerIs defenderWinsResult platoonP1.id &&
                !decide (companyP0.type = PieceType.Engineer) &&
                (resetRecord platoonP1).isInBackRows)) ∧
          ((winnerIs defenderWinsResult platoonP1.id = true ∧
              ¬companyP0.type = PieceType.Engineer ∧
              (resetRecord platoonP1).isInBackRows = true) →
            defM'.confirmedType = some PieceType.Mine ∧ defM'.possibleTypes = ∅)) :=
  ⟨by decide, by decide, by decide,
    processBattle_confirmed_mine_condition (memReset [companyP0, platoonP1]) companyP0
      platoonP1 defenderWinsResult (resetRecord companyP0) (resetRecord platoonP1)
      (by decide) (by decide) (by decide)⟩


/-- C5: any destination inside the central 6..10 x 6..10 hub rectangle
that is not one of the nine station intersections (rows and columns in
{6, 8, 10}) is rejected by isValidMove for every board, source and piece,
regardless of path validity. The claim's concrete instance is wrong,
however: (8,8) IS one of the nine stations, so stopping there is not
covered by this rule (see the counterexample below). -/
theorem central_nonstation_destination_rejected (b : Board) (fromPos toPos : Position) (piece : Piece)
    (hx1 : 6 ≤ toPos.x) (hx2 : toPos.x ≤ 10) (hy1 : 6 ≤ toPos.y) (hy2 : toPos.y ≤ 10)
    (hs : isCentralStation toPos.x toPos.y = false) :
    isValidMoveE b fromPos toPos piece = Except.ok false := by
  have hc : centralStopForbidden toPos = true := by
    unfold centralStopForbidden
    simp [hx1, hx2, hy1, hy2, hs]
  unfold isValidMoveE
  split
  · rfl
  · split
    · split
      · rfl
      · split_ifs <;> first | rfl | exact absurd hc (by assumption)
    · rfl

theorem bindOk {α β : Type} (a : α) (f : α → Except Unit β) :
    (Except.ok a >>= f : Except Unit β) = f a := rfl

theorem rawRow_ok (b : Board) (hb : b.length = 17) (i : Int) (h0 : 0 ≤ i) (h1 : i < 17) :
    ∃ row, rawRow b i = Except.ok row := by
  unfold rawRow listIdx?
  rw [if_neg (by omega : ¬i < 0)]
  have hlt : i.toNat < b.length := by omega
  rw [List.getElem?_eq_getElem hlt]
  exact ⟨_, rfl⟩

theorem rawPieceAt_ok (b : Board) (hb : b.length = 17) (i j : Int) (h0 : 0 ≤ i)
    (h1 : i < 17) : ∃ v, rawPieceAt b i j = Except.ok v := by
  obtain ⟨row, hrow⟩ := rawRow_ok b hb i h0 h1
  exact ⟨_, by unfold rawPieceAt; rw [hrow]; rfl⟩

theorem pathScanH_ok (b : Board) (hb : b.length = 17) (x : Int) (h0 : 0 ≤ x) (h1 : x < 17) :
    ∀ ys : List Int, ∃ v, pathScanH b x ys = Except.ok v := by
  intro ys
  induction ys with
  | nil => exact ⟨true, rfl⟩
  | cons y rest ih =>
      obtain ⟨row, hrow⟩ := rawRow_ok b hb x h0 h1
      obtain ⟨v, hv⟩ := ih
      unfold pathScanH
      rw [hrow, bindOk]
      cases hcell : ((listIdx? row y).join) with
      | none => exact ⟨false, rfl⟩
      | some node =>
          dsimp only
          by_cases hp : node.piece.isSome = true
          · exact ⟨false, by rw [if_pos hp]; rfl⟩
          · rw [if_neg hp]
            by_cases hr : isRailwayNode x y = true
            · refine ⟨v, ?_⟩
              rw [if_neg (by simp [hr]), hv]
            · have hr2 : isRailwayNode x y = false := by
                revert hr; cases isRailwayNode x y <;> simp
              refine ⟨false, ?_⟩
              rw [if_pos (by simp [hr2])]
              rfl

theorem pathScanV_ok (b : Board) (hb : b.length = 17) (y : Int) :
    ∀ xs : List Int, (∀ x ∈ xs, 0 ≤ x ∧ x < 17) → ∃ v, pathScanV b y xs = Except.ok v := by
  intro xs
  induction xs with
  | nil => intro _; exact ⟨true, rfl⟩
  | cons x rest ih =>
      intro hall
      obtain ⟨hx0, hx1⟩ := hall x (by simp)
      obtain ⟨row, hrow⟩ := rawRow_ok b hb x hx0 hx1
      obtain ⟨v, hv⟩ := ih fun z hz => hall z (by simp [hz])
      unfold pathScanV
      rw [hrow, bindOk]
      cases hcell : ((listIdx? row y).join) with
      | none => exact ⟨false, rfl⟩
      | some node =>
          dsimp only
          by_cases hp : node.piece.isSome = true
          · exact ⟨false, by rw [if_pos hp]; rfl⟩
          · rw [if_neg hp]
            by_cases hr : isRailwayNode x y = true
            · refine ⟨v, ?_⟩
              rw [if_neg (by simp [hr]), hv]
            · have hr2 : isRailwayNode x y = false := by
                revert hr; cases isRailwayNode x y <;> simp
              refine ⟨false, ?_⟩
              rw [if_pos (by simp [hr2])]
              rfl

theorem betweenIdx_bounds (a c x : Int) (hx : x ∈ betweenIdx a c) :
    min a c < x ∧ x < max a c := by
  unfold betweenIdx at hx
  rw [List.mem_map] at hx
  obtain ⟨k, hk, hx2⟩ := hx
  rw [List.mem_range] at hk
  subst hx2
  rcases le_total a c with hac | hac
  · rw [min_eq_left hac, max_eq_right hac] at hk ⊢
    omega
  · rw [min_eq_right hac, max_eq_left hac] at hk ⊢
    omega

theorem isPathClearE_ok (b : Board) (hb : b.length = 17) (p q : Position)
    (hp0 : 0 ≤ p.x) (hp1 : p.x < 17) (hq0 : 0 ≤ q.x) (hq1 : q.x < 17) :
    ∃ v, isPathClearE b p q = Except.ok v := by
  unfold isPathClearE
  by_cases h1 : p.x = q.x
  · rw [if_pos h1]
    exact pathScanH_ok b hb p.x hp0 hp1 _
  · rw [if_neg h1]
    by_cases h2 : p.y = q.y
    · rw [if_pos h2]
      apply pathScanV_ok b hb p.y
      intro x hx
      have := betweenIdx_bounds p.x q.x x hx
      omega
    · rw [if_neg h2]
      exact ⟨false, rfl⟩

theorem jam2_ok (b : Board) (hb : b.length = 17) (i1 j1 i2 j2 : Int)
    (h1 : 0 ≤ i1) (h2 : i1 < 17) (h3 : 0 ≤ i2) (h4 : i2 < 17) :
    ∃ v, (do
      let p1 ← rawPieceAt b i1 j1
      let p2 ← rawPieceAt b i2 j2
      pure (p1 && p2) : Except Unit Bool) = Except.ok v := by
  obtain ⟨v1, hv1⟩ := rawPieceAt_ok b hb i1 j1 h1 h2
  obtain ⟨v2, hv2⟩ := rawPieceAt_ok b hb i2 j2 h3 h4
  exact ⟨v1 && v2, by rw [hv1, bindOk, hv2, bindOk]; rfl⟩

theorem engineerJamE_ok (b : Board) (hb : b.length = 17) (fromPos : Position) :
    ∃ v, engineerJamE b fromPos = Except.ok v := by
  unfold engineerJamE
  split_ifs <;>
    first
      | exact ⟨false, rfl⟩
      | exact jam2_ok b hb _ _ _ _ (by omega) (by omega) (by omega) (by omega)

theorem bind_ok_exists {α β : Type} (m : Except Unit α) (f : α → Except Unit β)
    (hm : ∃ a, m = Except.ok a) (hf : ∀ a, ∃ c, f a = Except.ok c) :
    ∃ c, (m >>= f) = Except.ok c := by
  obtain ⟨a, ha⟩ := hm
  obtain ⟨c, hc⟩ := hf a
  exact ⟨c, by rw [ha, bindOk, hc]⟩

theorem cornerCaseE_ok (b : Board) (hb : b.length = 17) (fromPos toPos : Position)
    (hf0 : 0 ≤ fromPos.x) (hf1 : fromPos.x < 17) (ht0 : 0 ≤ toPos.x) (ht1 : toPos.x < 17) :
    ∀ l : List (Position × Position),
      (∀ e ∈ l, (0 ≤ e.1.x ∧ e.1.x < 17) ∧ (0 ≤ e.2.x ∧ e.2.x < 17)) →
      ∃ v, cornerCaseE b fromPos toPos l = Except.ok v := by
  intro l
  induction l with
  | nil => intro _; exact ⟨false, rfl⟩
  | cons e rest ih =>
      intro hall
      obtain ⟨⟨hc10, hc11⟩, hc20, hc21⟩ := hall e (by simp)
      obtain ⟨v, hv⟩ := ih fun z hz => hall z (by simp [hz])
      obtain ⟨c1, c2⟩ := e
      rw [cornerCaseE]
      by_cases h1 : (!cornerEntryOk fromPos c1) = true
      · rw [if_pos h1]
        exact ⟨v, hv⟩
      · rw [if_neg h1]
        by_cases h2 : (!cornerExitOk toPos c2) = true
        · rw [if_pos h2]
          exact ⟨v, hv⟩
        · rw [if_neg h2]
          refine bind_ok_exists _ _ ?_ ?_
          · by_cases hq : fromPos = c1
            · refine ⟨true, ?_⟩
              rw [if_pos hq]
              rfl
            · rw [if_neg hq]
              refine bind_ok_exists _ _ ⟨_, rawPieceAt_ok b hb c1.x c1.y hc10 hc11 |>.choose_spec⟩ ?_
              intro occ
              by_cases ho : occ = true
              · refine ⟨false, ?_⟩
                rw [if_pos ho]
                rfl
              · rw [if_neg ho]
                exact isPathClearE_ok b hb fromPos c1 hf0 hf1 hc10 hc11
          · intro leg1ok
            by_cases hww : (!leg1ok) = true
            · rw [if_pos hww]
              exact ⟨v, hv⟩
            · rw [if_neg hww]
              refine bind_ok_exists _ _ ?_ ?_
              · by_cases hq : toPos = c2
                · refine ⟨true, ?_⟩
                  rw [if_pos hq]
                  rfl
                · rw [if_neg hq]
                  refine bind_ok_exists _ _ ⟨_, rawPieceAt_ok b hb c2.x c2.y hc20 hc21 |>.choose_spec⟩ ?_
                  intro occ
                  by_cases ho : occ = true
                  · refine ⟨false, ?_⟩
                    rw [if_pos ho]
                    rfl
                  · rw [if_neg ho]
                    exact isPathClearE_ok b hb c2 toPos hc20 hc21 ht0 ht1
              · intro leg2ok
                by_cases hw2b : leg2ok = true
                · refine ⟨true, ?_⟩
                  rw [if_pos hw2b]
                  rfl
                · rw [if_neg hw2b]
                  exact ⟨v, hv⟩

/-- C9: on any board with the full 17 rows (as every board built by
createInitialBoard or simulateMove has), isValidMoveE never reaches an
error: it returns Except.ok r for some Boolean r, for every fromPos,
toPos and piece, including positions outside the playable cross. Hence
isValidMove is a total Boolean function there; purity and idempotence
are structural in this embedding (it is a function of its arguments). -/
theorem isValidMove_total_on_17_rows (b : Board) (hb : b.length = 17)
    (fromPos toPos : Position) (piece : Piece) :
    ∃ r : Bool, isValidMoveE b fromPos toPos piece = Except.ok r := by
  unfold isValidMoveE
  by_cases hv : (!isValidPos fromPos.x fromPos.y || !isValidPos toPos.x toPos.y) = true
  · exact ⟨false, by rw [if_pos hv]; rfl⟩
  · rw [if_neg hv]
    have hfv : isValidPos fromPos.x fromPos.y = true := by
      revert hv
      cases isValidPos fromPos.x fromPos.y <;> cases isValidPos toPos.x toPos.y <;> simp
    have htv : isValidPos toPos.x toPos.y = true := by
      revert hv
      cases isValidPos fromPos.x fromPos.y <;> cases isValidPos toPos.x toPos.y <;> simp
    have hf0 : 0 ≤ fromPos.x ∧ fromPos.x < 17 := by
      unfold isValidPos BOARD_ROWS at hfv
      simp only [Bool.and_eq_true, decide_eq_true_eq] at hfv
      exact ⟨hfv.1.1.1, hfv.1.1.2⟩
    have ht0 : 0 ≤ toPos.x ∧ toPos.x < 17 := by
      unfold isValidPos BOARD_ROWS at htv
      simp only [Bool.and_eq_true, decide_eq_true_eq] at htv
      exact ⟨htv.1.1.1, htv.1.1.2⟩
    cases hcf : chk b fromPos with
    | none =>
        cases hct : chk b toPos with
        | none => exact ⟨false, rfl⟩
        | some tn => exact ⟨false, rfl⟩
    | some fn =>
        cases hct : chk b toPos with
        | none => exact ⟨false, rfl⟩
        | some tn =>
            dsimp only
            cases hfp : fn.piece with
            | none => exact ⟨false, rfl⟩
            | some q =>
                dsimp only
                by_cases h1 : (!decide (q.id = piece.id)) = true
                · exact ⟨false, by rw [if_pos h1]; rfl⟩
                · rw [if_neg h1]
                  by_cases h2 : (decide (piece.type = PieceType.Flag) ||
                      decide (piece.type = PieceType.Mine)) = true
                  · exact ⟨false, by rw [if_pos h2]; rfl⟩
                  · rw [if_neg h2]
                    by_cases h3 : decide (fn.type = BoardNodeType.HQ) = true
                    · exact ⟨false, by rw [if_pos h3]; rfl⟩
                    · rw [if_neg h3]
                      by_cases h4 : hqEntryBlocked toPos tn piece = true
                      · exact ⟨false, by rw [if_pos h4]; rfl⟩
                      · rw [if_neg h4]
                        by_cases h5 : campsiteBlocked tn = true
                        · exact ⟨false, by rw [if_pos h5]; rfl⟩
                        · rw [if_neg h5]
                          by_cases h6 : hostileBlocked tn piece = true
                          · exact ⟨false, by rw [if_pos h6]; rfl⟩
                          · rw [if_neg h6]
                            by_cases h7 : centralStopForbidden toPos = true
                            · exact ⟨false, by rw [if_pos h7]; rfl⟩
                            · rw [if_neg h7]
                              by_cases h8 : (areAdjacent fromPos toPos &&
                                  frontRowBlocked fromPos toPos) = true
                              · exact ⟨false, by rw [if_pos h8]; rfl⟩
                              · rw [if_neg h8]
                                refine bind_ok_exists _ _ ?_ ?_
                                · by_cases heng :
                                      decide (piece.type = PieceType.Engineer) = true
                                  · rw [if_pos heng]
                                    exact engineerJamE_ok b hb fromPos
                                  · rw [if_neg heng]
                                    exact ⟨false, rfl⟩
                                · intro jam
                                  by_cases hj : jam = true
                                  · exact ⟨false, by rw [if_pos hj]; rfl⟩
                                  · rw [if_neg hj]
                                    by_cases hadj : areAdjacent fromPos toPos = true
                                    · exact ⟨true, by rw [if_pos hadj]; rfl⟩
                                    · rw [if_neg hadj]
                                      by_cases hrail : (isRailwayNode fromPos.x fromPos.y &&
                                          isRailwayNode toPos.x toPos.y) = true
                                      · rw [if_pos hrail]
                                        by_cases heng2 :
                                            decide (piece.type = PieceType.Engineer) = true
                                        · exact ⟨findRailwayPath b fromPos toPos,
                                            by rw [if_pos heng2]; rfl⟩
                                        · rw [if_neg heng2]
                                          by_cases hcn : ((cornerNeighbors fromPos).any
                                              fun n => decide (n = toPos)) = true
                                          · exact ⟨true, by rw [if_pos hcn]; rfl⟩
                                          · rw [if_neg hcn]
                                            by_cases hsl : isStraightLine fromPos toPos = true
                                            · rw [if_pos hsl]
                                              exact isPathClearE_ok b hb fromPos toPos
                                                hf0.1 hf0.2 ht0.1 ht0.2
                                            · rw [if_neg hsl]
                                              exact cornerCaseE_ok b hb fromPos toPos
                                                hf0.1 hf0.2 ht0.1 ht0.2 cornerEntries
                                                (by decide)
                                      · rw [if_neg hrail]
                                        exact ⟨false, rfl⟩

/-- Witness for C5: the rejection theorem applied at the concrete
pass-through destination (7,8). -/
theorem central_nonstation_destination_rejected_witness :
    isValidMoveE boardStation68 ⟨6, 8⟩ ⟨7, 8⟩ companyP0 = Except.ok false :=
  central_nonstation_destination_rejected boardStation68 ⟨6, 8⟩ ⟨7, 8⟩ companyP0
    (by decide) (by decide) (by decide) (by decide) (by decide)

/-- Counterexample for C5's concrete instance: (8,8) is a central
station, and the move (6,8) -> (8,8) by a company on the station board
is accepted, contradicting the claim that it must return false. -/
theorem central_station_stop_88_is_accepted :
    isCentralStation 8 8 = true ∧
    isValidMoveE boardStation68 ⟨6, 8⟩ ⟨8, 8⟩ companyP0 = Except.ok true :=
  ⟨by decide, by rfl⟩

/-- Witness for C9: totality applied on the initial board at a concrete
move probe. -/
theorem isValidMove_total_witness :
    ∃ r : Bool, isValidMoveE createInitialBoard ⟨0, 0⟩ ⟨1, 0⟩ companyP0 = Except.ok r :=
  isValidMove_total_on_17_rows createInitialBoard (by rfl) ⟨0, 0⟩ ⟨1, 0⟩ companyP0

/-- C8: a seat with no flag left is classified newly dead by
checkGameOver, and once its partner seat (0/2 or 1/3) is also dead,
checkGameOver reports the game over with the opposing team as winner.
The rotation part of the claim is corrected: getNextActivePlayer tests
only seatHasNonFlagPiece, so what it guarantees is merely that a seat it
advances to still owns some non-Flag piece; it does NOT skip every dead
seat (see the counterexample: a flagless seat owning only a Mine is
newly dead yet still returned by the rotation). -/
theorem dead_seat_classification_rotation_and_team_win (b : Board) (dead : List Nat) :
    (∀ pid, pid < 4 → pid ∉ dead → hasFlagB b pid = false →
        pid ∈ (checkGameOver b dead).newDeadPlayers) ∧
    (∀ cur, getNextActivePlayer b cur ≠ cur →
        seatHasNonFlagPiece b (getNextActivePlayer b cur) = true) ∧
    ((0 ∈ dead ∨ playerAlive b 0 = false) → (2 ∈ dead ∨ playerAlive b 2 = false) →
        (checkGameOver b dead).isOver = true ∧
        (checkGameOver b dead).winnerTeam = some 1) := by
  refine ⟨?_, ?_, ?_⟩
  · intro pid hp hnd hflag
    have halive : playerAlive b pid = false := by
      unfold playerAlive
      rw [hflag]
      rfl
    have hcond : (!decide (pid ∈ dead) && !playerAlive b pid) = true := by
      rw [halive]
      simp [hnd]
    unfold checkGameOver
    dsimp only
    split_ifs <;>
      exact List.mem_filter.mpr ⟨List.mem_range.mpr hp, hcond⟩
  · intro cur hne
    unfold getNextActivePlayer at hne ⊢
    by_cases h1 : seatHasNonFlagPiece b ((cur + 1) % 4) = true
    · simp [List.findSome?_cons, h1]
    · by_cases h2 : seatHasNonFlagPiece b ((cur + 2) % 4) = true
      · simp [List.findSome?_cons, h1, h2]
      · by_cases h3 : seatHasNonFlagPiece b ((cur + 3) % 4) = true
        · simp [List.findSome?_cons, h1, h2, h3]
        · by_cases h4 : seatHasNonFlagPiece b (cur % 4) = true
          · simp [List.findSome?_cons, h1, h2, h3, h4]
          · exact absurd (by simp [List.findSome?_cons, h1, h2, h3, h4]) hne
  · intro h0 h2
    have hm0 : 0 ∈ dead ++ (List.range 4).filter
        (fun pid => !decide (pid ∈ dead) && !playerAlive b pid) := by
      by_cases hd : 0 ∈ dead
      · exact List.mem_append_left _ hd
      · cases h0 with
        | inl h => exact absurd h hd
        | inr h =>
            refine List.mem_append_right _ (List.mem_filter.mpr ⟨by decide, ?_⟩)
            rw [h]
            simp [hd]
    have hm2 : 2 ∈ dead ++ (List.range 4).filter
        (fun pid => !decide (pid ∈ dead) && !playerAlive b pid) := by
      by_cases hd : 2 ∈ dead
      · exact List.mem_append_left _ hd
      · cases h2 with
        | inl h => exact absurd h hd
        | inr h =>
            refine List.mem_append_right _ (List.mem_filter.mpr ⟨by decide, ?_⟩)
            rw [h]
            simp [hd]
    have d0 := decide_eq_true hm0
    have d2 := decide_eq_true hm2
    unfold checkGameOver
    dsimp only
    rw [d0, d2]
    simp

/-- Counterexample for C8's rotation clause: on boardMineOnly seat 1 has
no flag and no movable piece, so it is newly dead, yet
getNextActivePlayer still rotates to it because it owns a Mine. -/
theorem rotation_returns_newly_dead_seat :
    hasFlagB boardMineOnly 1 = false ∧ hasMovableB boardMineOnly 1 = false ∧
    1 ∈ (checkGameOver boardMineOnly []).newDeadPlayers ∧
    getNextActivePlayer boardMineOnly 0 = 1 := by
  refine ⟨by decide, by decide, by decide, by decide⟩

/-- Witness for C8: the classification clause applied on the concrete
mine-only board. -/
theorem dead_seat_classification_witness :
    1 ∈ (checkGameOver boardMineOnly []).newDeadPlayers :=
  (dead_seat_classification_rotation_and_team_win boardMineOnly []).1 1 (by decide)
    (by decide) (by decide)

theorem approxEV_refl (α β r : EV) : approxEV α β r r :=
  ⟨fun _ => le_refl r, fun _ _ => rfl, fun _ => le_refl r⟩

theorem plainMaxLoop_init_le {M : Type} (pchild : M → EV) :
    ∀ (l : List M) (m : EV), m ≤ plainMaxLoop pchild l m := by
  intro l
  induction l with
  | nil => intro m; exact le_refl m
  | cons mv rest ih => intro m; exact le_trans (le_max_left _ _) (ih _)

theorem plainMinLoop_le_init {M : Type} (pchild : M → EV) :
    ∀ (l : List M) (m : EV), plainMinLoop pchild l m ≤ m := by
  intro l
  induction l with
  | nil => intro m; exact le_refl m
  | cons mv rest ih => intro m; exact le_trans (ih _) (min_le_left _ _)

theorem abMaxLoop_approx {M : Type} (child : M → EV → EV → EV) (pchild : M → EV)
    (a0 β : EV)
    (hchild : ∀ mv α, a0 ≤ α → α < β → approxEV α β (child mv α β) (pchild mv)) :
    ∀ (l : List M) (m mt : EV), mt ≤ m → m ≤ max a0 mt → max a0 m < β →
      approxEV a0 β (abMaxLoop child β l (max a0 m) m) (plainMaxLoop pchild l mt) := by
  intro l
  induction l with
  | nil =>
      intro m mt h1 h2 h3
      refine ⟨fun _ => h1, fun hα _ => ?_, fun hβ => ?_⟩
      · rcases le_max_iff.mp h2 with h | h
        · exact absurd hα (not_lt.mpr h)
        · exact le_antisymm h h1
      · rcases le_max_iff.mp h2 with h | h
        · exact absurd (lt_of_le_of_lt (le_trans hβ h) (lt_of_le_of_lt (le_max_left a0 m) h3))
            (lt_irrefl β)
        · exact h
  | cons mv rest ih =>
      intro m mt h1 h2 h3
      have ha0β : a0 < β := lt_of_le_of_lt (le_max_left a0 m) h3
      obtain ⟨hc1, hc2, hc3⟩ := hchild mv (max a0 m) (le_max_left _ _) h3
      rw [abMaxLoop, plainMaxLoop]
      by_cases hcut : β ≤ max (max a0 m) (child mv (max a0 m) β)
      · rw [if_pos hcut]
        have hβv : β ≤ child mv (max a0 m) β := by
          rcases le_max_iff.mp hcut with h | h
          · exact absurd h (not_le.mpr h3)
          · exact h
        have hvw : child mv (max a0 m) β ≤ pchild mv := hc3 hβv
        have hmtV := plainMaxLoop_init_le pchild rest (max mt (pchild mv))
        refine ⟨fun hr => ?_, fun hα hrβ => ?_, fun _ => ?_⟩
        · exact absurd
            (lt_of_le_of_lt (le_trans hβv (le_trans (le_max_right m _) hr)) ha0β)
            (lt_irrefl β)
        · exact absurd (lt_of_le_of_lt (le_trans hβv (le_max_right m _)) hrβ) (lt_irrefl β)
        · have hm_le : m ≤ plainMaxLoop pchild rest (max mt (pchild mv)) := by
            rcases le_max_iff.mp h2 with h | h
            · exact le_trans h (le_trans (le_of_lt ha0β) (le_trans hβv
                (le_trans hvw (le_trans (le_max_right mt _) hmtV))))
            · exact le_trans h (le_trans (le_max_left mt _) hmtV)
          have hv_le : child mv (max a0 m) β ≤ plainMaxLoop pchild rest (max mt (pchild mv)) :=
            le_trans hvw (le_trans (le_max_right mt _) hmtV)
          exact max_le hm_le hv_le
      · rw [if_neg hcut]
        have hα' : max (max a0 m) (child mv (max a0 m) β) < β := not_le.mp hcut
        have hvβ : child mv (max a0 m) β < β := lt_of_le_of_lt (le_max_right _ _) hα'
        have key : (pchild mv ≤ child mv (max a0 m) β ∧ child mv (max a0 m) β ≤ max a0 m) ∨
            child mv (max a0 m) β = pchild mv := by
          by_cases hvα : child mv (max a0 m) β ≤ max a0 m
          · exact Or.inl ⟨hc1 hvα, hvα⟩
          · exact Or.inr (hc2 (not_le.mp hvα) hvβ)
        have h1' : max mt (pchild mv) ≤ max m (child mv (max a0 m) β) := by
          rcases key with ⟨hwv, _⟩ | heq
          · exact max_le (le_trans h1 (le_max_left _ _)) (le_trans hwv (le_max_right _ _))
          · exact max_le_max h1 (le_of_eq heq.symm)
        have h2' : max m (child mv (max a0 m) β) ≤ max a0 (max mt (pchild mv)) := by
          have hm : m ≤ max a0 (max mt (pchild mv)) :=
            le_trans h2 (max_le_max (le_refl a0) (le_max_left mt _))
          have hv : child mv (max a0 m) β ≤ max a0 (max mt (pchild mv)) := by
            rcases key with ⟨_, hvα⟩ | heq
            · exact le_trans hvα (max_le (le_max_left _ _) hm)
            · rw [heq]
              exact le_trans (le_max_right mt _) (le_max_right a0 _)
          exact max_le hm hv
        have h3' : max a0 (max m (child mv (max a0 m) β)) < β := by
          rw [← max_assoc]
          exact hα'
        have hrec := ih (max m (child mv (max a0 m) β)) (max mt (pchild mv)) h1' h2' h3'
        rw [max_assoc]
        exact hrec

theorem abMinLoop_approx {M : Type} (child : M → EV → EV → EV) (pchild : M → EV)
    (α b0 : EV)
    (hchild : ∀ mv β, α < β → β ≤ b0 → approxEV α β (child mv α β) (pchild mv)) :
    ∀ (l : List M) (m mt : EV), m ≤ mt → min b0 mt ≤ m → α < min b0 m →
      approxEV α b0 (abMinLoop child α l (min b0 m) m) (plainMinLoop pchild l mt) := by
  intro l
  induction l with
  | nil =>
      intro m mt h1 h2 h3
      refine ⟨fun hα => ?_, fun _ hb => ?_, fun hβ => ?_⟩
      · rcases min_le_iff.mp h2 with h | h
        · exact absurd (lt_of_lt_of_le (lt_of_lt_of_le h3 (min_le_left b0 m)) (le_trans h hα))
            (lt_irrefl α)
        · exact h
      · rcases min_le_iff.mp h2 with h | h
        · exact absurd hb (not_lt.mpr h)
        · exact le_antisymm h1 h
      · exact h1
  | cons mv rest ih =>
      intro m mt h1 h2 h3
      have hαb : α < b0 := lt_of_lt_of_le h3 (min_le_left b0 m)
      obtain ⟨hc1, hc2, hc3⟩ := hchild mv (min b0 m) h3 (min_le_left _ _)
      rw [abMinLoop, plainMinLoop]
      by_cases hcut : min (min b0 m) (child mv α (min b0 m)) ≤ α
      · rw [if_pos hcut]
        have hvα : child mv α (min b0 m) ≤ α := by
          rcases min_le_iff.mp hcut with h | h
          · exact absurd h (not_le.mpr h3)
          · exact h
        have hwv : pchild mv ≤ child mv α (min b0 m) := hc1 hvα
        have hmtV := plainMinLoop_le_init pchild rest (min mt (pchild mv))
        refine ⟨fun _ => ?_, fun hα hb => ?_, fun hβ => ?_⟩
        · have hm_ge : plainMinLoop pchild rest (min mt (pchild mv)) ≤ m := by
            rcases min_le_iff.mp h2 with h | h
            · exact le_trans hmtV (le_trans (min_le_right mt _) (le_trans hwv
                (le_trans hvα (le_trans (le_of_lt hαb) h))))
            · exact le_trans hmtV (le_trans (min_le_left mt _) h)
          have hv_ge : plainMinLoop pchild rest (min mt (pchild mv)) ≤ child mv α (min b0 m) :=
            le_trans hmtV (le_trans (min_le_right mt _) hwv)
          exact le_min hm_ge hv_ge
        · exact absurd (lt_of_lt_of_le hα (le_trans (min_le_right m _) hvα)) (lt_irrefl α)
        · exact absurd
            (lt_of_lt_of_le hαb (le_trans hβ (le_trans (min_le_right m _) hvα)))
            (lt_irrefl α)
      · rw [if_neg hcut]
        have hβ' : α < min (min b0 m) (child mv α (min b0 m)) := not_le.mp hcut
        have hαv : α < child mv α (min b0 m) := lt_of_lt_of_le hβ' (min_le_right _ _)
        have key : (child mv α (min b0 m) ≤ pchild mv ∧ min b0 m ≤ child mv α (min b0 m)) ∨
            child mv α (min b0 m) = pchild mv := by
          by_cases hvb : min b0 m ≤ child mv α (min b0 m)
          · exact Or.inl ⟨hc3 hvb, hvb⟩
          · exact Or.inr (hc2 hαv (not_le.mp hvb))
        have h1' : min m (child mv α (min b0 m)) ≤ min mt (pchild mv) := by
          rcases key with ⟨hvw, _⟩ | heq
          · exact le_min (le_trans (min_le_left _ _) h1) (le_trans (min_le_right _ _) hvw)
          · exact min_le_min h1 (le_of_eq heq)
        have h2' : min b0 (min mt (pchild mv)) ≤ min m (child mv α (min b0 m)) := by
          have hm : min b0 (min mt (pchild mv)) ≤ m :=
            le_trans (min_le_min (le_refl b0) (min_le_left mt _)) h2
          have hv : min b0 (min mt (pchild mv)) ≤ child mv α (min b0 m) := by
            rcases key with ⟨_, hvb⟩ | heq
            · exact le_trans (le_min (min_le_left _ _) hm) hvb
            · rw [heq]
              exact le_trans (min_le_right b0 _) (min_le_right mt _)
          exact le_min hm hv
        have h3' : α < min b0 (min m (child mv α (min b0 m))) := by
          rw [← min_assoc]
          exact hβ'
        have hrec := ih (min m (child mv α (min b0 m))) (min mt (pchild mv)) h1' h2' h3'
        rw [min_assoc]
        exact hrec

theorem minimax_approx {B M : Type} (env : SearchEnv B M) (orig : Nat) :
    ∀ (depth : Nat) (b : B) (α β : EV) (maxP : Bool) (cur : Nat), α < β →
      approxEV α β (minimaxAB env orig depth b α β maxP cur)
        (minimaxPlain env orig depth b maxP cur) := by
  intro depth
  induction depth with
  | zero => intro b α β maxP cur _; exact approxEV_refl _ _ _
  | succ d ih =>
      intro b α β maxP cur hαβ
      rw [minimaxAB, minimaxPlain]
      dsimp only
      by_cases hemp : (env.moves b cur).isEmpty = true
      · rw [if_pos hemp, if_pos hemp]
        split_ifs <;> exact approxEV_refl _ _ _
      · rw [if_neg hemp, if_neg hemp]
        by_cases hmax : maxP = true
        · rw [if_pos hmax, if_pos hmax]
          have hmb : max α (⊥ : EV) = α := max_eq_left bot_le
          have base := abMaxLoop_approx
            (fun mv α' β' => minimaxAB env orig d (env.simulate b mv) α' β'
              (decide (env.next (env.simulate b mv) cur = orig) ||
                decide ((env.next (env.simulate b mv) cur + 2) % 4 = orig))
              (env.next (env.simulate b mv) cur))
            (fun mv => minimaxPlain env orig d (env.simulate b mv)
              (decide (env.next (env.simulate b mv) cur = orig) ||
                decide ((env.next (env.simulate b mv) cur + 2) % 4 = orig))
              (env.next (env.simulate b mv) cur))
            α β
            (fun mv α' _ hα'β => ih (env.simulate b mv) α' β _ _ hα'β)
            ((env.order b cur (env.moves b cur)).take 20) ⊥ ⊥ le_rfl bot_le
            (by rw [hmb]; exact hαβ)
          rw [hmb] at base
          exact base
        · rw [if_neg hmax, if_neg hmax]
          have hmt : min β (⊤ : EV) = β := min_eq_left le_top
          have base := abMinLoop_approx
            (fun mv α' β' => minimaxAB env orig d (env.simulate b mv) α' β'
              (decide (env.next (env.simulate b mv) cur = orig) ||
                decide ((env.next (env.simulate b mv) cur + 2) % 4 = orig))
              (env.next (env.simulate b mv) cur))
            (fun mv => minimaxPlain env orig d (env.simulate b mv)
              (decide (env.next (env.simulate b mv) cur = orig) ||
                decide ((env.next (env.simulate b mv) cur + 2) % 4 = orig))
              (env.next (env.simulate b mv) cur))
            α β
            (fun mv β' hαβ' _ => ih (env.simulate b mv) α β' _ _ hαβ')
            ((env.order b cur (env.moves b cur)).take 20) ⊤ ⊤ le_rfl
              (min_le_right _ _)
            (by rw [hmt]; exact hαβ)
          rw [hmt] at base
          exact base

/-- C6: for every search environment (hence for the source's concrete
getPlayerMoves / simulateMove / getNextActivePlayer / evaluateBoard
instantiation), every board, acting seat and side, minimax at depth 2
with alpha-beta pruning and the initial (-infinity, +infinity) window
returns exactly the value of the identical search without pruning, over
the same ordered, 20-truncated move list at every node. -/
theorem minimax_alpha_beta_equals_unpruned_depth2 {B M : Type} (env : SearchEnv B M)
    (orig cur : Nat) (b : B) (maxP : Bool) :
    minimaxAB env orig 2 b ⊥ ⊤ maxP cur = minimaxPlain env orig 2 b maxP cur := by
  obtain ⟨h1, h2, h3⟩ := minimax_approx env orig 2 b ⊥ ⊤ maxP cur bot_lt_top
  rcases eq_bot_or_bot_lt (minimaxAB env orig 2 b ⊥ ⊤ maxP cur) with hr | hr
  · have hv := h1 (le_of_eq hr)
    rw [hr] at hv ⊢
    exact (le_bot_iff.mp hv).symm
  · rcases eq_top_or_lt_top (minimaxAB env orig 2 b ⊥ ⊤ maxP cur) with hr2 | hr2
    · have hv := h3 (le_of_eq hr2.symm)
      rw [hr2] at hv ⊢
      exact (top_le_iff.mp hv).symm
    · exact h2 hr hr2

theorem push1_vis_mono (st : List Position × Finset Position) (ok : Bool) (v : Position) :
    st.2 ⊆ (push1 st ok v).2 := by
  unfold push1
  split_ifs with h
  · exact Finset.subset_insert _ _
  · exact Finset.Subset.refl _

theorem push1_self_mem (st : List Position × Finset Position) (ok : Bool) (v : Position)
    (hok : ok = true) : v ∈ (push1 st ok v).2 := by
  unfold push1
  split_ifs with h
  · exact Finset.mem_insert_self _ _
  · by_contra hv
    exact h ⟨hok, hv⟩

theorem cfoldl_vis_mono (b : Board) (toPos : Position) :
    ∀ (l : List Position) (st : List Position × Finset Position),
      st.2 ⊆ (l.foldl (fun st v => push1 st (cornerOk b toPos v) v) st).2 := by
  intro l
  induction l with
  | nil => intro st; exact Finset.Subset.refl _
  | cons u rest ih => intro st; exact (push1_vis_mono _ _ _).trans (ih _)

theorem cfoldl_self_mem (b : Board) (toPos : Position) :
    ∀ (l : List Position) (st : List Position × Finset Position) (v : Position), v ∈ l →
      cornerOk b toPos v = true →
      v ∈ (l.foldl (fun st v => push1 st (cornerOk b toPos v) v) st).2 := by
  intro l
  induction l with
  | nil => intro st v hv _; exact absurd hv (List.not_mem_nil v)
  | cons u rest ih =>
      intro st v hv hok
      rcases List.mem_cons.mp hv with rfl | hv'
      · exact cfoldl_vis_mono _ _ rest _ (push1_self_mem _ _ _ hok)
      · exact ih _ v hv' hok

theorem push1_inv {b : Board} {toPos : Position} {vis : Finset Position} {curr : Position}
    (st : List Position × Finset Position) (ok : Bool) (v : Position)
    (hcand : ok = true → railStep b toPos curr v)
    (h : ExpandInv b toPos vis curr st) : ExpandInv b toPos vis curr (push1 st ok v) := by
  obtain ⟨i1, i2, i3, i4, i5⟩ := h
  unfold push1
  split_ifs with hc
  · obtain ⟨hok, hnm⟩ := hc
    refine ⟨i1.trans (Finset.subset_insert _ _), ?_, ?_, ?_, ?_⟩
    · intro x hx
      rcases List.mem_append.mp hx with h | h
      · exact Finset.mem_insert_of_mem (i2 x h)
      · simp only [List.mem_singleton] at h
        subst h
        exact Finset.mem_insert_self _ _
    · rw [Finset.card_insert_of_not_mem hnm, i3, List.length_append]
      simp only [List.length_singleton]
      omega
    · intro x hx
      rcases Finset.mem_insert.mp hx with h | h
      · subst h
        exact Or.inr (List.mem_append.mpr (Or.inr (List.mem_singleton.mpr rfl)))
      · rcases i4 x h with h' | h'
        · exact Or.inl h'
        · exact Or.inr (List.mem_append.mpr (Or.inl h'))
    · intro x hx
      rcases List.mem_append.mp hx with h | h
      · exact i5 x h
      · simp only [List.mem_singleton] at h
        subst h
        exact hcand hok
  · exact ⟨i1, i2, i3, i4, i5⟩

theorem cfoldl_inv {b : Board} {toPos : Position} {vis : Finset Position} {curr : Position} :
    ∀ (l : List Position) (st : List Position × Finset Position),
      (∀ v ∈ l, cornerOk b toPos v = true → railStep b toPos curr v) →
      ExpandInv b toPos vis curr st →
      ExpandInv b toPos vis curr
        (l.foldl (fun st v => push1 st (cornerOk b toPos v) v) st) := by
  intro l
  induction l with
  | nil => intro st _ h; exact h
  | cons u rest ih =>
      intro st hl h
      exact ih _ (fun v hv => hl v (List.mem_cons_of_mem _ hv))
        (push1_inv _ _ _ (hl u (List.mem_cons_self _ _)) h)

theorem expand_inv (b : Board) (toPos curr : Position) (vis : Finset Position) :
    ExpandInv b toPos vis curr (expand b toPos curr vis) := by
  unfold expand
  exact cfoldl_inv _ _
    (fun v hv hok => Or.inr (Or.inr ⟨hv, hok⟩))
    (push1_inv _ _ _ (fun hok => Or.inr (Or.inl ⟨Or.inr rfl, hok⟩))
      (push1_inv _ _ _ (fun hok => Or.inr (Or.inl ⟨Or.inl rfl, hok⟩))
        (push1_inv _ _ _ (fun hok => Or.inl ⟨Or.inr rfl, hok⟩)
          (push1_inv _ _ _ (fun hok => Or.inl ⟨Or.inl rfl, hok⟩)
            ⟨Finset.Subset.refl vis, by simp, by simp, fun x hx => Or.inl hx, by simp⟩))))

theorem expand_closure (b : Board) (toPos curr : Position) (vis : Finset Position) :
    ∀ v, railStep b toPos curr v → v ∈ (expand b toPos curr vis).2 := by
  intro v h
  unfold expand
  rcases h with ⟨hv, hok⟩ | ⟨hv, hok⟩ | ⟨hv, hok⟩
  · rcases hv with rfl | rfl
    · exact cfoldl_vis_mono _ _ _ _ (push1_vis_mono _ _ _ (push1_vis_mono _ _ _
        (push1_vis_mono _ _ _ (push1_self_mem _ _ _ hok))))
    · exact cfoldl_vis_mono _ _ _ _ (push1_vis_mono _ _ _ (push1_vis_mono _ _ _
        (push1_self_mem _ _ _ hok)))
  · rcases hv with rfl | rfl
    · exact cfoldl_vis_mono _ _ _ _ (push1_vis_mono _ _ _ (push1_self_mem _ _ _ hok))
    · exact cfoldl_vis_mono _ _ _ _ (push1_self_mem _ _ _ hok)
  · exact cfoldl_self_mem _ _ _ _ _ hv hok

theorem valid_bounds (x y : Int) (h : isValidPos x y = true) :
    0 ≤ x ∧ x < 17 ∧ 0 ≤ y ∧ y < 17 := by
  unfold isValidPos BOARD_ROWS BOARD_COLS at h
  simp only [Bool.and_eq_true, decide_eq_true_eq] at h
  exact ⟨h.1.1.1, h.1.1.2, h.1.2, h.2⟩

theorem mem_allPositions (x y : Int) (h0 : 0 ≤ x) (h1 : x < 17) (h2 : 0 ≤ y) (h3 : y < 17) :
    (⟨x, y⟩ : Position) ∈ allPositions := by
  have hx17 : x.toNat ∈ List.range 17 := List.mem_range.mpr (by omega)
  have hy17 : y.toNat ∈ List.range 17 := List.mem_range.mpr (by omega)
  have key : (⟨Int.ofNat x.toNat, Int.ofNat y.toNat⟩ : Position) ∈ allPositions :=
    List.mem_flatMap.mpr ⟨x.toNat, hx17, List.mem_map.mpr ⟨y.toNat, hy17, rfl⟩⟩
  have hx : Int.ofNat x.toNat = x := Int.toNat_of_nonneg h0
  have hy : Int.ofNat y.toNat = y := Int.toNat_of_nonneg h2
  rw [hx, hy] at key
  exact key

theorem railStep_target_mem (b : Board) (toPos u v : Position)
    (h : railStep b toPos u v) : v ∈ allPositions := by
  rcases h with ⟨_, hok⟩ | ⟨_, hok⟩ | ⟨hv, _⟩
  · unfold orthoOkH at hok
    simp only [Bool.and_eq_true] at hok
    obtain ⟨h0, h1, h2, h3⟩ := valid_bounds _ _ hok.1.1.1.1
    exact mem_allPositions v.x v.y h0 h1 h2 h3
  · unfold orthoOkV at hok
    simp only [Bool.and_eq_true] at hok
    obtain ⟨h0, h1, h2, h3⟩ := valid_bounds _ _ hok.1.1.1.1
    exact mem_allPositions v.x v.y h0 h1 h2 h3
  · unfold cornerNeighbors at hv
    split_ifs at hv <;>
      first
        | exact absurd hv (List.not_mem_nil v)
        | (simp only [List.mem_singleton] at hv
           subst hv
           exact mem_allPositions _ _ (by decide) (by decide) (by decide) (by decide))

theorem allPositions_length : allPositions.length = 289 := by rfl

theorem bfsFuel_iff (b : Board) (toPos fromPos : Position) :
    ∀ (fuel : Nat) (queue : List Position) (vis : Finset Position),
      (∀ x ∈ queue, x ∈ vis) →
      vis ⊆ allPositions.toFinset →
      queue.length + (allPositions.toFinset.card - vis.card) < fuel →
      (∀ x ∈ vis, x ∉ queue → ∀ v, railStep b toPos x v → v ∈ vis) →
      (toPos ∈ vis → toPos ∈ queue) →
      (∀ x ∈ queue, Relation.ReflTransGen (railStep b toPos) fromPos x) →
      fromPos ∈ vis →
      (bfsFuel b toPos fuel queue vis = true ↔ railReach b toPos fromPos) := by
  intro fuel
  induction fuel with
  | zero => intro queue vis _ _ hfuel _ _ _ _; exact absurd hfuel (Nat.not_lt_zero _)
  | succ f ih =>
      intro queue vis hsub hgrid hfuel hclosed htarget hsound hstart
      cases queue with
      | nil =>
          constructor
          · intro h
            rw [show bfsFuel b toPos (f + 1) [] vis = false from rfl] at h
            exact absurd h Bool.false_ne_true
          · intro hreach
            exfalso
            have hcl : ∀ z, Relation.ReflTransGen (railStep b toPos) fromPos z → z ∈ vis := by
              intro z hz
              induction hz with
              | refl => exact hstart
              | tail h1 step ihz => exact hclosed _ ihz (List.not_mem_nil _) _ step
            exact (List.not_mem_nil toPos) (htarget (hcl toPos hreach))
      | cons curr rest =>
          by_cases hc : curr = toPos
          · have hL : bfsFuel b toPos (f + 1) (curr :: rest) vis = true := by
              simp only [bfsFuel]
              rw [if_pos hc]
            rw [hL]
            exact iff_of_true rfl (hc ▸ hsound curr (List.mem_cons_self _ _))
          · have hL : bfsFuel b toPos (f + 1) (curr :: rest) vis =
                bfsFuel b toPos f (rest ++ (expand b toPos curr vis).1)
                  (expand b toPos curr vis).2 := by
              simp only [bfsFuel]
              rw [if_neg hc]
            rw [hL]
            obtain ⟨i1, i2, i3, i4, i5⟩ := expand_inv b toPos curr vis
            have hgrid' : (expand b toPos curr vis).2 ⊆ allPositions.toFinset := by
              intro x hx
              rcases i4 x hx with h | h
              · exact hgrid h
              · exact List.mem_toFinset.mpr (railStep_target_mem b toPos curr x (i5 x h))
            apply ih
            · intro x hx
              rcases List.mem_append.mp hx with h | h
              · exact i1 (hsub x (List.mem_cons_of_mem _ h))
              · exact i2 x h
            · exact hgrid'
            · have hc1 : vis.card ≤ allPositions.toFinset.card := Finset.card_le_card hgrid
              have hc2 : (expand b toPos curr vis).2.card ≤ allPositions.toFinset.card :=
                Finset.card_le_card hgrid'
              rw [List.length_append]
              rw [List.length_cons] at hfuel
              omega
            · intro x hx hnx v hstep
              rcases i4 x hx with h | h
              · by_cases hxc : x = curr
                · subst hxc
                  exact expand_closure b toPos x vis v hstep
                · have hxq : x ∉ curr :: rest := by
                    intro hmem
                    rcases List.mem_cons.mp hmem with h' | h'
                    · exact hxc h'
                    · exact hnx (List.mem_append.mpr (Or.inl h'))
                  exact i1 (hclosed x h hxq v hstep)
              · exact absurd (List.mem_append.mpr (Or.inr h)) hnx
            · intro hx
              rcases i4 toPos hx with h | h
              · rcases List.mem_cons.mp (htarget h) with h' | h'
                · exact absurd h'.symm hc
                · exact List.mem_append.mpr (Or.inl h')
              · exact List.mem_append.mpr (Or.inr h)
            · intro x hx
              rcases List.mem_append.mp hx with h | h
              · exact hsound x (List.mem_cons_of_mem _ h)
              · exact Relation.ReflTransGen.tail (hsound curr (List.mem_cons_self _ _)) (i5 x h)
            · exact i1 hstart

theorem railway_bounds (x y : Int) (h : isRailwayNode x y = true) :
    0 ≤ x ∧ x < 17 ∧ 0 ≤ y ∧ y < 17 := by
  unfold isRailwayNode isVerticalRailway isHorizontalRailway isCentralRailwayVertical
    isCentralRailwayHorizontal at h
  simp only [Bool.or_eq_true, Bool.and_eq_true, decide_eq_true_eq] at h
  omega

theorem findRailwayPath_iff (b : Board) (fromPos toPos : Position)
    (hrf : isRailwayNode fromPos.x fromPos.y = true)
    (hrt : isRailwayNode toPos.x toPos.y = true) :
    (findRailwayPath b fromPos toPos = true ↔ railReach b toPos fromPos) := by
  unfold findRailwayPath
  rw [if_neg (by rw [hrf, hrt]; decide)]
  obtain ⟨hb0, hb1, hb2, hb3⟩ := railway_bounds fromPos.x fromPos.y hrf
  have hG : allPositions.toFinset.card ≤ 289 := by
    have := List.toFinset_card_le allPositions
    rw [allPositions_length] at this
    exact this
  refine bfsFuel_iff b toPos fromPos 290 [fromPos] {fromPos} ?_ ?_ ?_ ?_ ?_ ?_ ?_
  · intro x hx
    simp only [List.mem_singleton] at hx
    subst hx
    exact Finset.mem_singleton_self _
  · intro x hx
    rw [Finset.mem_singleton] at hx
    rw [hx]
    exact List.mem_toFinset.mpr (mem_allPositions fromPos.x fromPos.y hb0 hb1 hb2 hb3)
  · simp only [List.length_singleton, Finset.card_singleton]
    omega
  · intro x hx hnx v _
    rw [Finset.mem_singleton] at hx
    subst hx
    exact absurd (List.mem_singleton.mpr rfl) hnx
  · intro hx
    rw [Finset.mem_singleton] at hx
    rw [hx]
    exact List.mem_singleton.mpr rfl
  · intro x hx
    simp only [List.mem_singleton] at hx
    subst hx
    exact Relation.ReflTransGen.refl
  · exact Finset.mem_singleton_self _

/-- C7: for a non-adjacent Engineer move between two railway cells that
passes every generic rule (ownership, HQ, campsite, hostile stacking,
central pass-through, engineer jam), isValidMove returns true exactly
when the destination is reachable from the source in the railway graph:
orthogonal steps with matching rail orientation on both cells plus the
fixed curved corner connections, turning any number of times, where a
step may enter an occupied cell only if that cell is the destination of
the whole move. -/
theorem engineer_railway_move_iff_reachable (b : Board) (fromPos toPos : Position) (piece : Piece)
    (fn tn : BoardNode) (q : Piece)
    (hcf : chk b fromPos = some fn) (hct : chk b toPos = some tn)
    (hfp : fn.piece = some q) (hqid : q.id = piece.id)
    (heng : piece.type = PieceType.Engineer)
    (hhq : decide (fn.type = BoardNodeType.HQ) = false)
    (h4 : hqEntryBlocked toPos tn piece = false)
    (h5 : campsiteBlocked tn = false)
    (h6 : hostileBlocked tn piece = false)
    (h7 : centralStopForbidden toPos = false)
    (hadj : areAdjacent fromPos toPos = false)
    (hjam : engineerJamE b fromPos = Except.ok false)
    (hrf : isRailwayNode fromPos.x fromPos.y = true)
    (hrt : isRailwayNode toPos.x toPos.y = true) :
    (isValidMoveE b fromPos toPos piece = Except.ok true ↔ railReach b toPos fromPos) := by
  have hvalid : (!isValidPos fromPos.x fromPos.y || !isValidPos toPos.x toPos.y) = false := by
    obtain ⟨a0, a1, a2, a3⟩ := railway_bounds fromPos.x fromPos.y hrf
    obtain ⟨c0, c1, c2, c3⟩ := railway_bounds toPos.x toPos.y hrt
    have hvf : isValidPos fromPos.x fromPos.y = true := by
      unfold isValidPos BOARD_ROWS BOARD_COLS
      simp only [Bool.and_eq_true, decide_eq_true_eq]
      exact ⟨⟨⟨a0, a1⟩, a2⟩, a3⟩
    have hvt : isValidPos toPos.x toPos.y = true := by
      unfold isValidPos BOARD_ROWS BOARD_COLS
      simp only [Bool.and_eq_true, decide_eq_true_eq]
      exact ⟨⟨⟨c0, c1⟩, c2⟩, c3⟩
    rw [hvf, hvt]
    rfl
  unfold isValidMoveE
  rw [if_neg (by intro hcontra; rw [hvalid] at hcontra; exact Bool.false_ne_true hcontra)]
  rw [hcf, hct]
  dsimp only
  rw [hfp]
  dsimp only
  rw [if_neg (by intro hcontra; rw [hqid] at hcontra; simp at hcontra)]
  rw [if_neg (by intro hcontra; rw [heng] at hcontra; exact absurd hcontra (by decide))]
  rw [if_neg (by intro hcontra; rw [hhq] at hcontra; exact Bool.false_ne_true hcontra)]
  rw [if_neg (by intro hcontra; rw [h4] at hcontra; exact Bool.false_ne_true hcontra)]
  rw [if_neg (by intro hcontra; rw [h5] at hcontra; exact Bool.false_ne_true hcontra)]
  rw [if_neg (by intro hcontra; rw [h6] at hcontra; exact Bool.false_ne_true hcontra)]
  rw [if_neg (by intro hcontra; rw [h7] at hcontra; exact Bool.false_ne_true hcontra)]
  rw [if_neg (by intro hcontra; rw [hadj, Bool.false_and] at hcontra; exact Bool.false_ne_true hcontra)]
  rw [if_pos (show decide (piece.type = PieceType.Engineer) = true by rw [heng]; decide)]
  rw [hjam, bindOk]
  rw [if_neg (show ¬((false : Bool) = true) from Bool.false_ne_true)]
  rw [if_neg (by intro hcontra; rw [hadj] at hcontra; exact Bool.false_ne_true hcontra)]
  rw [if_pos (show (isRailwayNode fromPos.x fromPos.y && isRailwayNode toPos.x toPos.y) = true
    by rw [hrf, hrt]; rfl)]
  rw [if_pos (show decide (piece.type = PieceType.Engineer) = true by rw [heng]; decide)]
  have hiff := findRailwayPath_iff b fromPos toPos hrf hrt
  constructor
  · intro h
    have h' : (Except.ok (findRailwayPath b fromPos toPos) : Except Unit Bool) =
        Except.ok true := h
    injection h' with h2
    exact hiff.mp h2
  · intro h
    rw [hiff.mpr h]
    rfl

/-- Witness for C7: the equivalence applied to a concrete Engineer move
down an open rail column on the engineer fixture board. -/
theorem engineer_railway_move_iff_reachable_witness :
    (isValidMoveE boardEngineer ⟨12, 6⟩ ⟨15, 6⟩ engineerP0 = Except.ok true ↔
      railReach boardEngineer ⟨15, 6⟩ ⟨12, 6⟩) :=
  engineer_railway_move_iff_reachable boardEngineer ⟨12, 6⟩ ⟨15, 6⟩ engineerP0
    ((chk boardEngineer ⟨12, 6⟩).getD ⟨BoardNodeType.Normal, false, none⟩)
    ((chk boardEngineer ⟨15, 6⟩).getD ⟨BoardNodeType.Normal, false, none⟩)
    engineerP0 (by rfl) (by rfl) (by rfl) rfl rfl (by decide) (by decide) (by decide)
    (by decide) (by decide) (by decide) (by rfl) (by decide) (by decide)
